import Mathlib

/-!
Verification of the literature reference-network expansion and scoring logic of
`scripts/epmc_utils.py` and `scripts/reference_scoring.py`.

The Python code is shallowly embedded: Python scalar values that occur in the
metadata dictionaries are modelled by `PyVal` (strings, integers, `None`; pandas
`NaN` is identified with `None`, which is how the code's `_clean`/`pd.isna`
helpers treat it), dictionaries by association lists, DataFrames by a record of
column names and typed rows, and floating-point arithmetic by exact rationals
(`math.tanh` and the SHA-1 digest are abstracted as function parameters, and
network I/O — Europe PMC HTTP calls — is abstracted as oracle parameters).
String operations (`strip`, `lower`, regex matching) are implemented directly
over character lists, matching Python's semantics on ASCII input.
-/

/-- A Python scalar value as it appears in Europe PMC metadata dicts:
a string, an integer, or `None` (also standing for pandas `NA`/`NaN`). -/
inductive PyVal where
  | vstr (s : String)
  | vint (n : Int)
  | vnone
deriving DecidableEq, Repr

/-- Python truthiness for `PyVal`: empty string, zero and `None` are falsy. -/
def PyVal.truthy : PyVal → Bool
  | .vstr s => s != ""
  | .vint n => n != 0
  | .vnone => false

/-- Python `str()` applied to a `PyVal`. -/
def PyVal.pyStr : PyVal → String
  | .vstr s => s
  | .vint n => toString n
  | .vnone => "None"

/-- Python `a or b` on metadata values (first operand if truthy, else second). -/
def pyOr (a b : PyVal) : PyVal := if a.truthy then a else b

/-- View an optional string as a `PyVal`. -/
def pvOfOpt : Option String → PyVal
  | some s => .vstr s
  | none => .vnone

/-- Truthiness of an optional string (Python `if value:` on a `str | None`). -/
def optTruthy : Option String → Bool
  | some s => s != ""
  | none => false

/-- Python `\s` / `str.strip` whitespace on ASCII: space, tab, LF, VT, FF, CR. -/
def isPySpace (c : Char) : Bool :=
  c.toNat == 32 || c.toNat == 9 || c.toNat == 10 || c.toNat == 11 ||
  c.toNat == 12 || c.toNat == 13

/-- ASCII decimal digit test (Python `\d` on ASCII input). -/
def isDigitCh (c : Char) : Bool := 48 ≤ c.toNat && c.toNat ≤ 57

/-- ASCII lower-casing of a character (Python `str.lower` on ASCII). -/
def lowerChar (c : Char) : Char :=
  if 65 ≤ c.toNat && c.toNat ≤ 90 then Char.ofNat (c.toNat + 32) else c

/-- ASCII upper-casing of a character (Python `str.upper` on ASCII). -/
def upperChar (c : Char) : Char :=
  if 97 ≤ c.toNat && c.toNat ≤ 122 then Char.ofNat (c.toNat - 32) else c

/-- ASCII lower-casing of a string. -/
def lowerStr (s : String) : String := ⟨s.data.map lowerChar⟩

/-- ASCII upper-casing of a string. -/
def upperStr (s : String) : String := ⟨s.data.map upperChar⟩

/-- Python `str.strip()` on a character list. -/
def pyStripList (cs : List Char) : List Char :=
  ((cs.dropWhile isPySpace).reverse.dropWhile isPySpace).reverse

/-- Python `str.strip()`. -/
def pyStrip (s : String) : String := ⟨pyStripList s.data⟩

/-- One pass of `re.sub(r"\s+", " ", ·)`: collapse every whitespace run to a
single space.  The boolean records whether the previous character was
whitespace (i.e. we are inside a run that already emitted its space). -/
def collapseSpacesAux : Bool → List Char → List Char
  | _, [] => []
  | prevSpace, c :: rest =>
    if isPySpace c then
      if prevSpace then collapseSpacesAux true rest
      else ' ' :: collapseSpacesAux true rest
    else c :: collapseSpacesAux false rest

/-- Python `re.sub(r"\s+", " ", s)`. -/
def normSub (s : String) : String := ⟨collapseSpacesAux false s.data⟩

/-- Whether `needle` is an initial segment of `hay`. -/
def listStartsWith : List Char → List Char → Bool
  | [], _ => true
  | _ :: _, [] => false
  | a :: as, b :: bs => a == b && listStartsWith as bs

/-- Whether `needle` occurs contiguously inside `hay` (Python `needle in hay`). -/
def hasSub (needle : List Char) : List Char → Bool
  | [] => listStartsWith needle []
  | c :: rest => listStartsWith needle (c :: rest) || hasSub needle rest

/-- Python `needle in hay` on strings. -/
def strContains (hay needle : String) : Bool := hasSub needle.data hay.data

/-- Split a string at every occurrence of a separator character
(Python `s.split(sep)` for a one-character separator). -/
def splitOnCharAux (sep : Char) : List Char → List Char → List String
  | acc, [] => [⟨acc.reverse⟩]
  | acc, c :: rest =>
    if c == sep then ⟨acc.reverse⟩ :: splitOnCharAux sep [] rest
    else splitOnCharAux sep (c :: acc) rest

/-- Python `s.split(sep)` for a one-character separator. -/
def splitOnChar (sep : Char) (s : String) : List String :=
  splitOnCharAux sep [] s.data

/-- Python `sep.join(xs)`. -/
def joinWith (sep : String) : List String → String
  | [] => ""
  | [x] => x
  | x :: y :: rest => x ++ sep ++ joinWith sep (y :: rest)

/-- Value of a digit list read in base 10. -/
def digitsToNat : List Char → Nat → Nat
  | [], acc => acc
  | c :: rest, acc => digitsToNat rest (acc * 10 + (c.toNat - 48))

/-- Python `str.isdigit()` on ASCII: nonempty and all decimal digits. -/
def isDigitStr (s : String) : Bool := !s.data.isEmpty && s.data.all isDigitCh

/-- Python `int(·)` on a `PyVal`, returning `none` where Python raises
(or where the value is `None`/`NaN`, which the callers guard with
`pd.notna`).  `int` of a string strips whitespace and accepts an optional
sign followed by digits. -/
def pyIntOpt : PyVal → Option Int
  | .vint n => some n
  | .vnone => none
  | .vstr s =>
    let t := pyStripList s.data
    match t with
    | '-' :: ds => if !ds.isEmpty && ds.all isDigitCh then some (-(digitsToNat ds 0 : Int)) else none
    | '+' :: ds => if !ds.isEmpty && ds.all isDigitCh then some ((digitsToNat ds 0 : Int)) else none
    | ds => if !ds.isEmpty && ds.all isDigitCh then some ((digitsToNat ds 0 : Int)) else none

/-! ### ID classification (`_classify`, epmc_utils.py lines 24-35)

The three identifier regexes are implemented as anchored matchers over
character lists.  Each matcher mirrors the corresponding pattern, including
the backtracking over the optional `(?:prefix:)?` group of the original
regular expressions. -/

/-- Case-insensitively consume `pat` (given lower-case) from the front of a
character list, returning the remainder on success. -/
def stripCIAux : List Char → List Char → Option (List Char)
  | [], cs => some cs
  | _ :: _, [] => none
  | p :: ps, c :: cs => if lowerChar c == p then stripCIAux ps cs else none

/-- Drop leading Python whitespace (`\s*`). -/
def dropSpacesL (cs : List Char) : List Char := cs.dropWhile isPySpace

/-- Match `(PMC\d+)\s*$` case-insensitively at the start of `cs`, returning the
text matched by the capture group (in its original case). -/
def pmcidCore (cs : List Char) : Option String :=
  match stripCIAux ['p', 'm', 'c'] cs with
  | none => none
  | some rest =>
    let ds := rest.takeWhile isDigitCh
    let rest2 := rest.dropWhile isDigitCh
    if ds.isEmpty then none
    else if rest2.all isPySpace then some ⟨cs.take 3 ++ ds⟩ else none

/-- Match `(\d{1,12})\s*$` at the start of `cs`. -/
def pmidCore (cs : List Char) : Option String :=
  let ds := cs.takeWhile isDigitCh
  let rest := cs.dropWhile isDigitCh
  if ds.isEmpty then none
  else if ds.length ≤ 12 && rest.all isPySpace then some ⟨ds⟩ else none

/-- Match `(10\.\d{4,9}/\S+)\s*$` at the start of `cs`. -/
def doiCore (cs : List Char) : Option String :=
  match cs with
  | '1' :: '0' :: '.' :: rest =>
    let ds := rest.takeWhile isDigitCh
    let rest2 := rest.dropWhile isDigitCh
    if 4 ≤ ds.length && ds.length ≤ 9 then
      match rest2 with
      | '/' :: tail =>
        let body := tail.takeWhile (fun c => !isPySpace c)
        let rest3 := tail.dropWhile (fun c => !isPySpace c)
        if body.isEmpty then none
        else if rest3.all isPySpace then
          some ⟨'1' :: '0' :: '.' :: (ds ++ '/' :: body)⟩
        else none
      | _ => none
    else none
  | _ => none

/-- Run a core matcher after the optional case-insensitive `tag:` group and the
surrounding `\s*`, with the regex backtracking over the optional group. -/
def matchWithOptTag (tag : List Char) (core : List Char → Option String)
    (s : String) : Option String :=
  let cs := dropSpacesL s.data
  match stripCIAux tag cs with
  | some rest =>
    match core (dropSpacesL rest) with
    | some v => some v
    | none => core cs
  | none => core cs

/-- `_PMCID_RE.match`: `^\s*(?:pmcid:)?\s*(PMC\d+)\s*$`, case-insensitive. -/
def matchPMCID (s : String) : Option String :=
  matchWithOptTag ['p', 'm', 'c', 'i', 'd', ':'] pmcidCore s

/-- `_PMID_RE.match`: `^\s*(?:pmid:)?\s*(\d{1,12})\s*$`, case-insensitive. -/
def matchPMID (s : String) : Option String :=
  matchWithOptTag ['p', 'm', 'i', 'd', ':'] pmidCore s

/-- `_DOI_RE.match`: `^\s*(?:doi:)?\s*(10\.\d{4,9}/\S+)\s*$`, case-insensitive. -/
def matchDOI (s : String) : Option String :=
  matchWithOptTag ['d', 'o', 'i', ':'] doiCore s

/-- `_classify` (epmc_utils.py lines 29-35): strip the query, then try the
PMCID, PMID and DOI patterns in that order, falling back to `title`. -/
def classify (q : String) : String × String :=
  let s := pyStrip q
  match matchPMCID s with
  | some v => ("pmcid", upperStr v)
  | none =>
    match matchPMID s with
    | some v => ("pmid", v)
    | none =>
      match matchDOI s with
      | some v => ("doi", v)
      | none => ("title", s)

/-! ### `_primary_relation` (reference_scoring.py lines 51-61) -/

/-- The trimmed, lower-cased, nonempty parts of a semicolon-joined relations
string: `[p.strip().lower() for p in relations.split(";") if p.strip()]`. -/
def relationParts (s : String) : List String :=
  (splitOnChar ';' s).filterMap fun p =>
    if pyStrip p != "" then some (lowerStr (pyStrip p)) else none

/-- `_primary_relation`: pick `"reference"`, then `"citation"`, then `"seed"`,
then the first nonempty part; `None` for `None` or an effectively empty
string. -/
def primaryRelation (relations : Option String) : Option String :=
  match relations with
  | none => none
  | some s =>
    if s == "" then none
    else
      let parts := relationParts s
      if "reference" ∈ parts then some "reference"
      else if "citation" ∈ parts then some "citation"
      else if "seed" ∈ parts then some "seed"
      else parts.head?

/-! ### Metadata dictionaries -/

/-- A Python metadata dict: an association list from keys to `PyVal`s.
(Insertion order is kept; a key occurs at most once in dicts built by the
operations below.) -/
abbrev PyDict := List (String × PyVal)

/-- Python `d.get(k)` (with default `None`). -/
def PyDict.get (d : PyDict) (k : String) : PyVal :=
  match d.lookup k with
  | some v => v
  | none => .vnone

/-- Set a key in a dict, overwriting in place or appending. -/
def dSet : PyDict → String → PyVal → PyDict
  | [], k, v => [(k, v)]
  | (k', v') :: rest, k, v =>
    if k' == k then (k, v) :: rest else (k', v') :: dSet rest k v

/-- Python `d.update(e)`. -/
def dUpdate (d : PyDict) : PyDict → PyDict
  | [] => d
  | (k, v) :: rest => dUpdate (dSet d k v) rest

/-- Python `d.setdefault(k, v)`: set only when the key is absent
(a key present with value `None` stays untouched). -/
def dSetdefault (d : PyDict) (k : String) (v : PyVal) : PyDict :=
  match d.lookup k with
  | some _ => d
  | none => dSet d k v

/-! ### URL helpers (`_src_url`, `_source_url_from_ids`, epmc_utils.py 43-54) -/

/-- Upper-case hex digit of a value below 16. -/
def hexDigit (n : Nat) : Char :=
  if n < 10 then Char.ofNat (48 + n) else Char.ofNat (55 + n)

/-- Percent-encode a single UTF-8 byte as `urllib.parse.quote(·, safe="")`
does: keep unreserved ASCII characters, escape everything else. -/
def quoteByte (b : UInt8) : List Char :=
  let c := Char.ofNat b.toNat
  if c.isAlphanum || c == '_' || c == '.' || c == '-' || c == '~' then [c]
  else ['%', hexDigit (b.toNat / 16), hexDigit (b.toNat % 16)]

/-- `urllib.parse.quote(s, safe="")`. -/
def urlQuote (s : String) : String :=
  ⟨s.toUTF8.toList.foldr (fun b acc => quoteByte b ++ acc) []⟩

/-- `_src_url`: `https://europepmc.org/article/{source}/{quote(id)}`. -/
def srcUrl (source id_ : String) : String :=
  "https://europepmc.org/article/" ++ source ++ "/" ++ urlQuote id_

/-- `_source_url_from_ids`: prefer PMCID, then PMID, then DOI. -/
def sourceUrlFromIds (pmcid pmid doi : PyVal) : PyVal :=
  if pmcid.truthy then .vstr (srcUrl "PMC" pmcid.pyStr)
  else if pmid.truthy then .vstr (srcUrl "MED" pmid.pyStr)
  else if doi.truthy then .vstr (srcUrl "DOI" doi.pyStr)
  else .vnone

/-- `_pmc_numeric`: `re.match(r"PMC(\d+)", pmcid, re.I)`, returning the digit
group. -/
def pmcNumericList (cs : List Char) : Option String :=
  match cs with
  | p :: m :: c :: rest =>
    if lowerChar p == 'p' && lowerChar m == 'm' && lowerChar c == 'c' then
      let ds := rest.takeWhile isDigitCh
      if ds.isEmpty then none else some ⟨ds⟩
    else none
  | _ => none

/-- `_pmc_numeric` on a string value. -/
def pmcNumeric (s : String) : Option String := pmcNumericList s.data

/-! ### Row normalisation and paginated listing
(`_normalize_row`, `list_references_epmc`, `list_citations_epmc`,
epmc_utils.py 429-439 and 608-673) -/

/-- A raw Europe PMC reference/citation payload row, with the fields
`_normalize_row` reads. -/
structure RawRow where
  id : PyVal := .vnone
  source : PyVal := .vnone
  pmid : PyVal := .vnone
  pmcid : PyVal := .vnone
  doi : PyVal := .vnone
  title : PyVal := .vnone
  journalTitle : PyVal := .vnone
  pubYear : PyVal := .vnone
deriving DecidableEq, Repr

/-- Whether a source value is one of `{"MED","MEDLINE","PUBMED"}`. -/
def isPubmedSource (v : PyVal) : Bool :=
  v == .vstr "MED" || v == .vstr "MEDLINE" || v == .vstr "PUBMED"

/-- `int(r["pubYear"]) if str(r.get("pubYear","")).isdigit() else r.get("pubYear")`. -/
def coerceRowYear (v : PyVal) : PyVal :=
  if isDigitStr v.pyStr then .vint (digitsToNat v.pyStr.data 0 : Int) else v

/-- `_normalize_row`: map a raw payload row to the tidy column dict. -/
def normalizeRow (r : RawRow) : PyDict :=
  let pmid := if isPubmedSource r.source then r.id else r.pmid
  [("PMID", pmid), ("PMCID", r.pmcid), ("DOI", r.doi), ("title", r.title),
   ("journal", r.journalTitle), ("year", coerceRowYear r.pubYear),
   ("source_url", sourceUrlFromIds r.pmcid pmid r.doi)]

/-- The fixed column set of `list_references_epmc` / `list_citations_epmc`. -/
def LIST_COLS : List String :=
  ["PMID", "PMCID", "DOI", "title", "journal", "year", "source_url"]

/-- A DataFrame of listing rows: fixed columns plus normalised row dicts. -/
structure ListDF where
  cols : List String
  rows : List PyDict
deriving DecidableEq, Repr

/-- The page-fetching loop shared by `list_references_epmc` and
`list_citations_epmc`.  `fetch page` is `none` on a `requests.RequestException`
(which breaks the loop) and `some rows` on success; an empty page or a short
page (fewer than `pageSize` rows) ends the pagination.  `fuel` bounds the
number of iterations of the Python `while True` loop. -/
def fetchPagesAux (fetch : Nat → Option (List RawRow)) (pageSize : Nat) :
    Nat → Nat → List PyDict
  | _, 0 => []
  | page, fuel + 1 =>
    match fetch page with
    | none => []
    | some res =>
      if res.isEmpty then []
      else
        let rows := res.map normalizeRow
        if res.length < pageSize then rows
        else rows ++ fetchPagesAux fetch pageSize (page + 1) fuel

/-- `list_references_epmc`: `resolved` is the outcome of
`_resolve_source_and_id` (an HTTP resolution, abstracted); `fetch` is the
`/references` page endpoint for that `(source, id)`. -/
def listReferencesEpmc (resolved : Option (String × String))
    (fetch : String × String → Nat → Option (List RawRow))
    (pageSize fuel : Nat) : ListDF :=
  match resolved with
  | none => ⟨LIST_COLS, []⟩
  | some sid => ⟨LIST_COLS, fetchPagesAux (fetch sid) pageSize 1 fuel⟩

/-- `list_citations_epmc`: identical loop over the `/citations` endpoint. -/
def listCitationsEpmc (resolved : Option (String × String))
    (fetch : String × String → Nat → Option (List RawRow))
    (pageSize fuel : Nat) : ListDF :=
  match resolved with
  | none => ⟨LIST_COLS, []⟩
  | some sid => ⟨LIST_COLS, fetchPagesAux (fetch sid) pageSize 1 fuel⟩

/-! ### `_standardize_meta` and `_make_node_key` (epmc_utils.py 735-799) -/

/-- The uniform metadata record produced by `_standardize_meta`: the dict with
the eight fixed keys.  `PMID`/`PMCID`/`DOI` are `str(·)`-coerced or `None`;
`title`, `journal`, `year` and `source_url` keep their raw values. -/
structure StdMeta where
  PMC : Option String := none
  PMID : Option String := none
  PMCID : Option String := none
  DOI : Option String := none
  title : PyVal := .vnone
  journal : PyVal := .vnone
  year : PyVal := .vnone
  source_url : PyVal := .vnone
deriving DecidableEq, Repr

/-- The year coercion inside `_standardize_meta`: integral numbers stay
integers, digit strings are parsed, everything else is kept. -/
def coerceStdYear (v : PyVal) : PyVal :=
  match v with
  | .vint n => .vint n
  | .vstr s => if isDigitStr s then .vint (digitsToNat s.data 0 : Int) else .vstr s
  | .vnone => .vnone

/-- `str(v) if v is not None else None` for an identifier value. -/
def strOrNone (v : PyVal) : Option String :=
  match v with
  | .vnone => none
  | v => some v.pyStr

/-- `_standardize_meta`: coerce a varied Europe PMC payload dict into the
uniform record (`_clean` maps pandas `NA` to `None`, which the `PyVal`
embedding already identifies). -/
def standardizeMeta (m : PyDict) : StdMeta :=
  let pmcid := pyOr (m.get "PMCID") (m.get "pmcid")
  let pmid := pyOr (m.get "PMID") (m.get "pmid")
  let doi := pyOr (m.get "DOI") (m.get "doi")
  let title := m.get "title"
  let journal := pyOr (m.get "journal") (m.get "journalTitle")
  let year := coerceStdYear (pyOr (m.get "year") (m.get "pubYear"))
  let source_url := m.get "source_url"
  { PMC := if pmcid.truthy then pmcNumeric pmcid.pyStr else none,
    PMID := strOrNone pmid,
    PMCID := strOrNone pmcid,
    DOI := strOrNone doi,
    title := title, journal := journal, year := year, source_url := source_url }

/-- The identifier parts collected by `_make_node_key`: for each of `PMID`,
`PMCID`, `DOI` (in that order), the truthy values, stripped and lower-cased. -/
def idParts (m : StdMeta) : List String :=
  [m.PMID, m.PMCID, m.DOI].filterMap fun v =>
    match v with
    | some s => if s != "" then some (lowerStr (pyStrip s)) else none
    | none => none

/-- `_make_node_key` (epmc_utils.py 776-799).  `hashO` abstracts the SHA-1
digest of the sorted dict items used as the last resort. -/
def makeNodeKey (hashO : StdMeta → String) (m : StdMeta) : String :=
  let parts := idParts m
  let parts :=
    if m.title.truthy && parts.isEmpty then
      parts ++ [lowerStr (pyStrip (normSub m.title.pyStr))]
    else parts
  let parts :=
    if m.source_url.truthy && parts.isEmpty then
      parts ++ [lowerStr (pyStrip m.source_url.pyStr)]
    else parts
  if !parts.isEmpty then joinWith "|" parts
  else "anon:" ++ hashO m

/-! ### `expand_literature_network_epmc` (epmc_utils.py 802-927) -/

/-- The in-memory node record built by `register`: standardized metadata plus
the traversal bookkeeping fields (`relations` and `parent_keys` model the
Python sets as duplicate-free lists). -/
structure NetNode where
  meta : StdMeta
  node_key : String
  depth : Nat
  relations : List String
  parent_keys : List String
deriving DecidableEq, Repr

/-- Insert into a list acting as a set. -/
def insertNew (xs : List String) (x : String) : List String :=
  if x ∈ xs then xs else xs ++ [x]

/-- Replace the value stored under a key in an association list (appending when
absent). -/
def setNode : List (String × NetNode) → String → NetNode → List (String × NetNode)
  | [], k, n => [(k, n)]
  | (k', n') :: rest, k, n =>
    if k' == k then (k, n) :: rest else (k', n') :: setNode rest k n

/-- `register` (epmc_utils.py 851-867): standardize the metadata, compute the
node key, and create or merge the node record.  A new node gets the given
depth, relation and (truthy) parent; an existing node keeps the minimum depth
and accumulates relations and truthy parents. -/
def register (hashO : StdMeta → String) (nodes : List (String × NetNode))
    (metaLike : PyDict) (relation : String) (depth : Nat)
    (parentKey : Option String) : String × List (String × NetNode) :=
  let bm := standardizeMeta metaLike
  let k := makeNodeKey hashO bm
  match nodes.lookup k with
  | none =>
    let pk :=
      match parentKey with
      | some p => if p != "" then [p] else []
      | none => []
    (k, nodes ++ [(k, ⟨bm, k, depth, [relation], pk⟩)])
  | some n =>
    let n := { n with depth := min n.depth depth,
                      relations := insertNew n.relations relation }
    let n :=
      match parentKey with
      | some p => if p != "" then { n with parent_keys := insertNew n.parent_keys p } else n
      | none => n
    (k, setNode nodes k n)

/-- The traversal state: the node map, the BFS queue of node keys, and the
`queued_depth` bookkeeping map. -/
structure ExpSt where
  nodes : List (String × NetNode)
  queue : List String
  queuedDepth : List (String × Nat)
deriving DecidableEq, Repr

/-- Set a key in the `queued_depth` map. -/
def setQD : List (String × Nat) → String → Nat → List (String × Nat)
  | [], k, d => [(k, d)]
  | (k', d') :: rest, k, d =>
    if k' == k then (k, d) :: rest else (k', d') :: setQD rest k d

/-- The effective include set: `{"references","citations"}` intersected with
the lower-cased truthy entries of the `include` argument when given. -/
def includeSetOf (include? : Option (List String)) : List String :=
  let base := ["references", "citations"]
  match include? with
  | none => base
  | some incl =>
    let filtered := (incl.filter (fun o => o != "")).map lowerStr
    base.filter (fun b => b ∈ filtered)

/-- A seed: either a raw string (resolved through `fetch_epmc`, abstracted by
the `fetchO` oracle) or an already-fetched metadata dict. -/
abbrev SeedInput := String ⊕ PyDict

/-- The seed loop of `expand_literature_network_epmc`: register every seed at
depth 0 with relation `"seed"`, queueing it when `max_depth > 0`. -/
def registerSeeds (hashO : StdMeta → String) (fetchO : String → PyDict)
    (maxDepth : Nat) : List SeedInput → ExpSt → ExpSt
  | [], s => s
  | seed :: rest, s =>
    let meta :=
      match seed with
      | .inl q => fetchO q
      | .inr d => d
    let kn := register hashO s.nodes meta "seed" 0 none
    let s := { s with nodes := kn.2 }
    let s :=
      if maxDepth > 0 then
        { s with queue := s.queue ++ [kn.1], queuedDepth := setQD s.queuedDepth kn.1 0 }
      else s
    registerSeeds hashO fetchO maxDepth rest s

/-- Register a batch of child rows under one relation, re-queueing children
that are strictly closer than any previously queued occurrence. -/
def processChildren (hashO : StdMeta → String) (relation : String)
    (curKey : String) (curDepth maxDepth : Nat) :
    List PyDict → ExpSt → ExpSt
  | [], s => s
  | child :: rest, s =>
    let kn := register hashO s.nodes child relation (curDepth + 1) (some curKey)
    let s := { s with nodes := kn.2 }
    let s :=
      if curDepth + 1 < maxDepth then
        match s.queuedDepth.lookup kn.1 with
        | none =>
          { s with queue := s.queue ++ [kn.1],
                   queuedDepth := setQD s.queuedDepth kn.1 (curDepth + 1) }
        | some pd =>
          if pd > curDepth + 1 then
            { s with queue := s.queue ++ [kn.1],
                     queuedDepth := setQD s.queuedDepth kn.1 (curDepth + 1) }
          else s
      else s
    processChildren hashO relation curKey curDepth maxDepth rest s

/-- One iteration of the `while queue` loop: pop the front key; skip nodes at
depth `≥ max_depth`; otherwise expand the enabled edge kinds.  The reference
and citation listings are HTTP calls abstracted by the `refsO`/`citesO`
oracles (applied to the node's standardized metadata). -/
def expandStep (hashO : StdMeta → String) (refsO citesO : StdMeta → List PyDict)
    (includeSet : List String) (maxDepth : Nat) (s : ExpSt) : ExpSt :=
  match s.queue with
  | [] => s
  | k :: rest =>
    let s := { s with queue := rest }
    match s.nodes.lookup k with
    | none => s
    | some node =>
      let d := node.depth
      if maxDepth ≤ d then s
      else
        let s :=
          if "references" ∈ includeSet then
            processChildren hashO "reference" k d maxDepth (refsO node.meta) s
          else s
        let s :=
          if "citations" ∈ includeSet then
            processChildren hashO "citation" k d maxDepth (citesO node.meta) s
          else s
        s

/-- The `while queue` loop, bounded by `fuel` iterations. -/
def expandLoop (hashO : StdMeta → String) (refsO citesO : StdMeta → List PyDict)
    (includeSet : List String) (maxDepth : Nat) : Nat → ExpSt → ExpSt
  | 0, s => s
  | fuel + 1, s =>
    match s.queue with
    | [] => s
    | _ :: _ =>
      expandLoop hashO refsO citesO includeSet maxDepth fuel
        (expandStep hashO refsO citesO includeSet maxDepth s)

/-- String comparison used to model Python `sorted` on strings
(lexicographic by code point). -/
def strLeB (a b : String) : Bool := !decide (b < a)

/-- Insert into a list sorted by the boolean comparator. -/
def insertSortedBy {α : Type} (le : α → α → Bool) (x : α) : List α → List α
  | [] => [x]
  | y :: ys => if le x y then x :: y :: ys else y :: insertSortedBy le x ys

/-- Insertion sort by a boolean comparator (stable, like pandas `mergesort`;
the claims below do not depend on the order of ties). -/
def sortByB {α : Type} (le : α → α → Bool) : List α → List α
  | [] => []
  | x :: xs => insertSortedBy le x (sortByB le xs)

/-- One output row of `expand_literature_network_epmc`: the node's columns
after the final record assembly (epmc_utils.py 910-918).  `relationsList` and
`parentsList` keep the sorted label lists whose joins populate the
`relations` and `parent_keys` columns. -/
structure NetRecord where
  node_key : String
  depth : Nat
  relationsList : List String
  relations : Option String
  parentsList : List String
  parent_keys : Option String
  n_parents : Nat
  meta : StdMeta
deriving DecidableEq, Repr

/-- Assemble the output record of one node. -/
def finalizeNode (n : NetNode) : NetRecord :=
  let relations := sortByB strLeB n.relations
  let parents := sortByB strLeB (n.parent_keys.filter (fun pk => pk != ""))
  { node_key := n.node_key, depth := n.depth,
    relationsList := relations,
    relations := if relations.isEmpty then none else some (joinWith ";" relations),
    parentsList := parents,
    parent_keys := if parents.isEmpty then none else some (joinWith ";" parents),
    n_parents := parents.length,
    meta := n.meta }

/-- Sort key for the final `sort_values(["depth", "title"], na_position="last")`:
by depth, then by title with missing titles last. -/
def recLeB (a b : NetRecord) : Bool :=
  if a.depth != b.depth then a.depth ≤ b.depth
  else
    match a.meta.title, b.meta.title with
    | .vnone, _ => false
    | _, .vnone => true
    | ta, tb => strLeB ta.pyStr tb.pyStr

/-- `expand_literature_network_epmc`: breadth-first expansion from the seeds,
returning the rows of the result DataFrame (the column set is fixed;
`max_depth` is clamped to a natural number as by `max(0, int(max_depth))`;
`fuel` bounds the Python `while` loop). -/
def expandLiteratureNetworkEpmc (hashO : StdMeta → String)
    (fetchO : String → PyDict) (refsO citesO : StdMeta → List PyDict)
    (fuel : Nat) (seeds : List SeedInput) (maxDepth : Nat)
    (include? : Option (List String)) : List NetRecord :=
  if seeds.isEmpty then []
  else
    let includeSet := includeSetOf include?
    let st1 := registerSeeds hashO fetchO maxDepth seeds ⟨[], [], []⟩
    let stF := expandLoop hashO refsO citesO includeSet maxDepth fuel st1
    sortByB recLeB (stF.nodes.map (fun kn => finalizeNode kn.2))

/-! ### Scoring (`reference_scoring.py`) -/

/-- `LONGEVITY_KEYWORDS` (reference_scoring.py 24-37). -/
def LONGEVITY_KEYWORDS : List String :=
  ["longevity", "lifespan", "life span", "aging", "ageing", "senescence",
   "geroprotect", "pro-longevity", "anti-aging", "lifespan extension",
   "calorie restriction", "healthspan"]

/-- The scoring weights (the three keys of `DEFAULT_WEIGHTS`), as exact
rationals in place of floats. -/
structure Weights where
  year : ℚ
  function : ℚ
  longevity : ℚ
deriving DecidableEq, Repr

/-- `DEFAULT_WEIGHTS = {"year": 0.4, "function": 0.35, "longevity": 0.25}`. -/
def DEFAULT_WEIGHTS : Weights := ⟨2/5, 7/20, 1/4⟩

/-- `_normalize_weights`: default when absent or when the total is
nonpositive, otherwise divide through by the total. -/
def normalizeWeights (w? : Option Weights) : Weights :=
  match w? with
  | none => DEFAULT_WEIGHTS
  | some w =>
    let total := w.year + w.function + w.longevity
    if total ≤ 0 then DEFAULT_WEIGHTS
    else ⟨w.year / total, w.function / total, w.longevity / total⟩

/-- Sentence-terminating punctuation of `SENTENCE_SPLIT_RE`. -/
def isSentEnd (c : Char) : Bool := c == '.' || c == '!' || c == '?'

/-- Scanner for `re.split(r"(?<=[.!?])\s+", text)`: `prevEnd` records whether
the previous character was sentence punctuation, `inSep` whether we are
consuming a whitespace separator run. -/
def splitSentAux : Bool → Bool → List Char → List (List Char) → List Char →
    List (List Char)
  | _, _, acc, done, [] => done ++ [acc.reverse]
  | prevEnd, false, acc, done, c :: rest =>
    if isPySpace c && prevEnd then
      splitSentAux false true [] (done ++ [acc.reverse]) rest
    else
      splitSentAux (isSentEnd c) false (c :: acc) done rest
  | _, true, acc, done, c :: rest =>
    if isPySpace c then splitSentAux false true acc done rest
    else splitSentAux (isSentEnd c) false [c] done rest

/-- `SENTENCE_SPLIT_RE.split(text)`. -/
def splitSentences (s : String) : List String :=
  (splitSentAux false false [] [] s.data).map fun cs => ⟨cs⟩

/-- States of the scanner counting matches of `NUMBER_RE = \d+(?:\.\d+)?`. -/
inductive NumSt where
  | out
  | intPart
  | dotSt
  | frac

/-- Count the non-overlapping matches of `NUMBER_RE` left to right. -/
def countNumbersAux : NumSt → List Char → Nat
  | _, [] => 0
  | .out, c :: rest =>
    if isDigitCh c then 1 + countNumbersAux .intPart rest
    else countNumbersAux .out rest
  | .intPart, c :: rest =>
    if isDigitCh c then countNumbersAux .intPart rest
    else if c == '.' then countNumbersAux .dotSt rest
    else countNumbersAux .out rest
  | .dotSt, c :: rest =>
    if isDigitCh c then countNumbersAux .frac rest
    else countNumbersAux .out rest
  | .frac, c :: rest =>
    if isDigitCh c then countNumbersAux .frac rest
    else countNumbersAux .out rest

/-- `len(NUMBER_RE.findall(sentence))`. -/
def countNumbers (s : String) : Nat := countNumbersAux .out s.data

/-- `_function_signal` (reference_scoring.py 320-330): each sentence whose
lower-casing contains `"function"` contributes `1 + min(2, 0.25 * numerals)`. -/
def functionSignal (text : String) : ℚ :=
  if text == "" then 0
  else
    (splitSentences text).foldl
      (fun score sentence =>
        if strContains (lowerStr sentence) "function" then
          score + 1 + min 2 ((1 / 4 : ℚ) * countNumbers sentence)
        else score)
      0

/-- `_longevity_signal` (reference_scoring.py 333-337): the number of longevity
keywords occurring in the lower-cased text. -/
def longevitySignal (text : String) : ℚ :=
  if text == "" then 0
  else ((LONGEVITY_KEYWORDS.filter fun kw => strContains (lowerStr text) kw).length : ℚ)

/-- The detail payload of `fetch_epmc_article_details`, reduced to the fields
`score_reference_dataframe` and `_combine_article_text` read (an HTTP failure
yields the all-empty record, like the function's `{}`). -/
structure Detail where
  title : Option String := none
  abstractText : Option String := none
  fullText : Option String := none
  introduction : Option String := none
  keywordList : Option (List PyVal) := none
deriving DecidableEq, Repr

/-- The identifier dict passed to the detail/full-text lookups:
`{"PMID": row.get("PMID"), "PMCID": …, "DOI": …, "title": …}`. -/
structure IdLookup where
  PMID : Option String
  PMCID : Option String
  DOI : Option String
  title : PyVal
deriving DecidableEq, Repr

/-- A DataFrame row of the reference-network pipeline, with every column that
`collect_reference_network_for_citation` can produce (absent columns are
`none`/`vnone`). -/
structure RowData where
  node_key : Option String := none
  depth : Option Nat := none
  relations : Option String := none
  relation_primary : Option String := none
  n_parents : Option Nat := none
  parent_keys : Option String := none
  PMC : Option String := none
  PMID : Option String := none
  PMCID : Option String := none
  DOI : Option String := none
  title : PyVal := .vnone
  journal : PyVal := .vnone
  year : PyVal := .vnone
  source_url : PyVal := .vnone
  gene_symbol : PyVal := .vnone
  uniprot_id : PyVal := .vnone
  seed_titles : PyVal := .vnone
  function_signal : Option ℚ := none
  longevity_signal : Option ℚ := none
  year_score : Option ℚ := none
  functionality_score : Option ℚ := none
  longevity_score : Option ℚ := none
  composite_score : Option ℚ := none
  abstract_text : Option String := none
  full_text : Option String := none
  full_text_abstract : Option String := none
  plain_text : Option String := none
  fullTextCol : Option String := none
  full_text_xml : Option String := none
deriving DecidableEq, Repr

/-- A DataFrame: column names plus rows. -/
structure PDF where
  cols : List String
  rows : List RowData
deriving DecidableEq, Repr

/-- The identifier lookup dict built from a row. -/
def lookupOfRow (r : RowData) : IdLookup := ⟨r.PMID, r.PMCID, r.DOI, r.title⟩

/-- `_combine_article_text` (reference_scoring.py 300-317). -/
def combineArticleText (row : RowData) (detail : Detail) : String :=
  let parts : List String :=
    (match row.title with | .vstr s => [s] | _ => []) ++
    detail.title.toList ++ detail.abstractText.toList ++
    detail.fullText.toList ++ detail.introduction.toList ++
    (match detail.keywordList with
     | some l => (l.filter PyVal.truthy).map PyVal.pyStr
     | none => [])
  joinWith " " parts

/-- The per-row recency score of `score_reference_dataframe`: `1/(1+age)` for
a truthy integral year, `0` otherwise (a missing or unparsable year, and also
the literal year `0`, which is falsy in `if year_int:`). -/
def yearScoreOf (currentYear : Int) (yv : PyVal) : ℚ :=
  match pyIntOpt yv with
  | some y => if y ≠ 0 then 1 / (1 + ((max 0 (currentYear - y) : Int) : ℚ)) else 0
  | none => 0

/-- The caching key of the scoring loop:
`row.get("node_key") or row.get("PMID") or row.get("DOI") or row.get("title")`,
stringified unless `None`. -/
def scoreCacheKey (r : RowData) : Option String :=
  let v := pyOr (pvOfOpt r.node_key)
    (pyOr (pvOfOpt r.PMID) (pyOr (pvOfOpt r.DOI) r.title))
  match v with
  | .vnone => none
  | v => some v.pyStr

/-- The accumulator of the scoring loop: the two caches plus the processed
rows in order. -/
structure ScoreAcc where
  detailCache : List (String × Detail)
  textCache : List (String × String)
  rowsOut : List RowData

/-- Annotate one row with its scores, given the detail payload and combined
text actually used for it. -/
def annotateScores (tanh : ℚ → ℚ) (currentYear : Int) (w : Weights)
    (detail : Detail) (combined : String) (row : RowData) : RowData :=
  let fraw := functionSignal combined
  let lraw := longevitySignal combined
  let ys := yearScoreOf currentYear row.year
  { row with
    abstract_text := detail.abstractText,
    function_signal := some fraw,
    longevity_signal := some lraw,
    year_score := some ys,
    functionality_score := some (tanh fraw),
    longevity_score := some (tanh (lraw / 2)),
    composite_score :=
      some (ys * w.year + tanh fraw * w.function + tanh (lraw / 2) * w.longevity) }

/-- Set a key in a generic association list. -/
def setAssoc {β : Type} : List (String × β) → String → β → List (String × β)
  | [], k, v => [(k, v)]
  | (k', v') :: rest, k, v =>
    if k' == k then (k, v) :: rest else (k', v') :: setAssoc rest k v

/-- Process one row of the scoring loop, threading the caches. -/
def processScoreRow (detailO : Bool → IdLookup → Detail) (iftd : Bool)
    (tanh : ℚ → ℚ) (currentYear : Int) (w : Weights) (acc : ScoreAcc)
    (row : RowData) : ScoreAcc :=
  let ck := scoreCacheKey row
  let usable := match ck with | some k => k != "" | none => false
  let cachedDetail :=
    match ck with
    | some k => if usable then acc.detailCache.lookup k else none
    | none => none
  let detail :=
    match cachedDetail with
    | some d => d
    | none => detailO iftd (lookupOfRow row)
  let detailCache' :=
    match ck, cachedDetail with
    | some k, none => if usable then setAssoc acc.detailCache k detail else acc.detailCache
    | _, _ => acc.detailCache
  let cachedText :=
    match ck with
    | some k => if usable then acc.textCache.lookup k else none
    | none => none
  let combined :=
    match cachedText with
    | some t => t
    | none => combineArticleText row detail
  let textCache' :=
    match ck, cachedText with
    | some k, none => if usable then setAssoc acc.textCache k combined else acc.textCache
    | _, _ => acc.textCache
  { detailCache := detailCache', textCache := textCache',
    rowsOut := acc.rowsOut ++ [annotateScores tanh currentYear w detail combined row] }

/-- The scoring loop over all rows. -/
def scoreRows (detailO : Bool → IdLookup → Detail) (iftd : Bool)
    (tanh : ℚ → ℚ) (currentYear : Int) (w : Weights) :
    ScoreAcc → List RowData → ScoreAcc
  | acc, [] => acc
  | acc, row :: rest =>
    scoreRows detailO iftd tanh currentYear w
      (processScoreRow detailO iftd tanh currentYear w acc row) rest

/-- Descending comparison on the composite score column. -/
def compositeGeB (a b : RowData) : Bool :=
  b.composite_score.getD 0 ≤ a.composite_score.getD 0

/-- Append the column names that are not yet present. -/
def addCols (cols : List String) : List String → List String
  | [] => cols
  | c :: rest => addCols (if c ∈ cols then cols else cols ++ [c]) rest

/-- The columns added by `score_reference_dataframe`. -/
def SCORE_COLS : List String :=
  ["abstract_text", "function_signal", "longevity_signal", "year_score",
   "functionality_score", "longevity_score", "composite_score"]

/-- `score_reference_dataframe` (reference_scoring.py 340-423): annotate every
row with its signals and composite score and sort by descending composite
score.  `detailO` abstracts `fetch_epmc_article_details`, `tanh` the float
`math.tanh`, and `currentYear` `datetime.utcnow().year`. -/
def scoreReferenceDataframe (detailO : Bool → IdLookup → Detail)
    (tanh : ℚ → ℚ) (currentYear : Int) (w? : Option Weights) (iftd : Bool)
    (df : PDF) : PDF :=
  if df.rows.isEmpty then df
  else
    let w := normalizeWeights w?
    let processed := (scoreRows detailO iftd tanh currentYear w ⟨[], [], []⟩ df.rows).rowsOut
    ⟨addCols df.cols SCORE_COLS, sortByB compositeGeB processed⟩

/-! ### `collect_reference_network_for_citation` (reference_scoring.py 64-223) -/

/-- The fixed column schema of `_empty_reference_network`
(reference_scoring.py 64-97). -/
def EMPTY_NETWORK_COLS : List String :=
  ["node_key", "depth", "relations", "relation_primary", "n_parents",
   "parent_keys", "PMC", "PMID", "PMCID", "DOI", "title", "journal", "year",
   "source_url", "gene_symbol", "uniprot_id", "seed_titles",
   "function_signal", "longevity_signal", "year_score",
   "functionality_score", "longevity_score", "composite_score",
   "abstract_text", "full_text", "full_text_abstract", "plain_text",
   "Full text"]

/-- `_empty_reference_network`: the empty DataFrame with the fixed schema
(plus `full_text_xml` when both flags are set). -/
def emptyReferenceNetwork (includeFulltext includeXml : Bool) : PDF :=
  ⟨if includeFulltext && includeXml then EMPTY_NETWORK_COLS ++ ["full_text_xml"]
    else EMPTY_NETWORK_COLS, []⟩

/-- A citation argument: a metadata dict (also covering `pd.Series`) or a raw
string. -/
inductive CitInput where
  | dict (d : PyDict)
  | str (s : String)

/-- The identifier scan of `_prepare_citation_metadata`: the first of
`PMCID`, `PMID`, `DOI`, `title` whose value is a string with nonempty strip
(taken stripped) or any other non-`None`, non-`""` value (stringified). -/
def prepareIdentifierFrom (base : PyDict) : List String → Option String
  | [] => none
  | field :: rest =>
    match base.get field with
    | .vstr s =>
      if pyStrip s != "" then some (pyStrip s)
      else if s != "" then some s
      else prepareIdentifierFrom base rest
    | .vint n => some (toString n)
    | .vnone => prepareIdentifierFrom base rest

/-- `_prepare_citation_metadata` (reference_scoring.py 100-155).  `fetchO`
abstracts `fetch_epmc(…, include_full_text=False)`. -/
def prepareCitationMetadata (fetchO : String → PyDict) (citation : CitInput) :
    PyDict :=
  let base := match citation with | .dict d => d | .str _ => []
  let identifier0 := prepareIdentifierFrom base ["PMCID", "PMID", "DOI", "title"]
  let identifier :=
    match citation with
    | .str s => if pyStrip s != "" then some (pyStrip s) else identifier0
    | .dict _ => identifier0
  let fetched : PyDict :=
    match identifier with
    | some idf => fetchO idf
    | none =>
      match base.get "title" with
      | .vstr t => if pyStrip t != "" then fetchO t else []
      | _ => []
  let combined := dUpdate (dUpdate [] fetched) base
  let combined :=
    match citation with
    | .str s =>
      if s != "" && !(combined.get "seed_source_title").truthy then
        dSet combined "seed_source_title" (.vstr s)
      else combined
    | .dict _ => combined
  dSetdefault combined "title" (combined.get "seed_source_title")

/-- The fixed columns of the `expand_literature_network_epmc` DataFrame. -/
def EXPAND_COLS : List String :=
  ["node_key", "depth", "relations", "n_parents", "parent_keys", "PMC",
   "PMID", "PMCID", "DOI", "title", "journal", "year", "source_url"]

/-- View an expansion record as a pipeline row. -/
def rowOfNetRecord (r : NetRecord) : RowData :=
  { node_key := some r.node_key, depth := some r.depth,
    relations := r.relations, n_parents := some r.n_parents,
    parent_keys := r.parent_keys, PMC := r.meta.PMC, PMID := r.meta.PMID,
    PMCID := r.meta.PMCID, DOI := r.meta.DOI, title := r.meta.title,
    journal := r.meta.journal, year := r.meta.year,
    source_url := r.meta.source_url }

/-- The payload of `fetch_epmc_full_text` (full-text XML, extracted plain
text, abstract), abstracted as an oracle result. -/
structure FTPayload where
  xml : Option String := none
  text : Option String := none
  abstract : Option String := none
deriving DecidableEq, Repr

/-- Python `a or b` on optional strings (`None` and `""` are falsy). -/
def orStr (a b : Option String) : Option String := if optTruthy a then a else b

/-- Enrich one row with full-text columns (`attach_full_text_columns` body,
reference_scoring.py 450-479). -/
def attachRow (fulltextO : IdLookup → FTPayload)
    (detailO : Bool → IdLookup → Detail) (includeXml : Bool) (row : RowData) :
    RowData :=
  let lk := lookupOfRow row
  let payload := fulltextO lk
  let xmlAbstract := payload.abstract
  let abstractValue := row.abstract_text
  let abstractValue :=
    if !optTruthy abstractValue then
      match xmlAbstract with
      | some s => if pyStrip s != "" then some (pyStrip s) else abstractValue
      | none => abstractValue
    else abstractValue
  let abstractValue :=
    if !optTruthy abstractValue then
      match (detailO false lk).abstractText with
      | some s => if pyStrip s != "" then some (pyStrip s) else abstractValue
      | none => abstractValue
    else abstractValue
  let fullText := payload.text
  let plain := (orStr (orStr fullText abstractValue) (some "")).getD ""
  { row with
    abstract_text := abstractValue,
    full_text := fullText,
    full_text_abstract := xmlAbstract,
    plain_text := some plain,
    fullTextCol := some plain,
    full_text_xml := if includeXml then payload.xml else row.full_text_xml }

/-- `attach_full_text_columns` (reference_scoring.py 426-489). -/
def attachFullTextColumns (fulltextO : IdLookup → FTPayload)
    (detailO : Bool → IdLookup → Detail) (includeXml : Bool) (df : PDF) : PDF :=
  if df.rows.isEmpty then df
  else
    let cols := addCols df.cols
      (["abstract_text", "full_text", "full_text_abstract", "plain_text",
        "Full text"] ++ if includeXml then ["full_text_xml"] else [])
    ⟨cols, df.rows.map (attachRow fulltextO detailO includeXml)⟩

/-- The scored network stage of `collect_reference_network_for_citation`:
expand from the prepared seed, assign the gene/uniprot/seed-title columns and
the primary relation, and score (with `include_fulltext=False` and default
weights). -/
def collectScoredPDF (hashO : StdMeta → String) (fetchO : String → PyDict)
    (refsO citesO : StdMeta → List PyDict) (detailO : Bool → IdLookup → Detail)
    (tanh : ℚ → ℚ) (currentYear : Int) (fuel : Nat) (seedMeta : PyDict)
    (geneVal uniVal seedTitle : PyVal) (include? : Option (List String))
    (maxDepth : Nat) : PDF :=
  let netRecords :=
    expandLiteratureNetworkEpmc hashO fetchO refsO citesO fuel
      [Sum.inr seedMeta] maxDepth include?
  let rows := netRecords.map rowOfNetRecord
  let rows := rows.map fun r =>
    { r with gene_symbol := geneVal, uniprot_id := uniVal,
             seed_titles := seedTitle }
  let rows := rows.map fun r =>
    { r with relation_primary := primaryRelation r.relations }
  let cols := addCols EXPAND_COLS
    ["gene_symbol", "uniprot_id", "seed_titles", "relation_primary"]
  scoreReferenceDataframe detailO tanh currentYear none false ⟨cols, rows⟩

/-- The `isin({"reference", "citation"})` row filter. -/
def isRefOrCitation (r : RowData) : Bool :=
  r.relation_primary == some "reference" || r.relation_primary == some "citation"

/-- `collect_reference_network_for_citation` (reference_scoring.py 158-223). -/
def collectReferenceNetworkForCitation (hashO : StdMeta → String)
    (fetchO : String → PyDict) (refsO citesO : StdMeta → List PyDict)
    (detailO : Bool → IdLookup → Detail) (fulltextO : IdLookup → FTPayload)
    (tanh : ℚ → ℚ) (currentYear : Int) (fuel : Nat)
    (citation : Option CitInput) (geneSymbol uniprotId : Option String)
    (include? : Option (List String)) (maxDepth : Nat)
    (includeFulltext includeXml : Bool) (topN : Option Int) : PDF :=
  match citation with
  | none => emptyReferenceNetwork includeFulltext includeXml
  | some cit =>
    let seedMeta := prepareCitationMetadata fetchO cit
    if seedMeta.isEmpty then emptyReferenceNetwork includeFulltext includeXml
    else
      let geneVal :=
        match geneSymbol with
        | some g => PyVal.vstr g
        | none => seedMeta.get "gene_symbol"
      let uniVal :=
        match uniprotId with
        | some u => PyVal.vstr u
        | none => seedMeta.get "uniprot_id"
      let seedTitle := pyOr (seedMeta.get "seed_source_title") (seedMeta.get "title")
      let netRecords :=
        expandLiteratureNetworkEpmc hashO fetchO refsO citesO fuel
          [Sum.inr seedMeta] maxDepth include?
      if netRecords.isEmpty then emptyReferenceNetwork includeFulltext includeXml
      else
        let scored :=
          collectScoredPDF hashO fetchO refsO citesO detailO tanh currentYear
            fuel seedMeta geneVal uniVal seedTitle include? maxDepth
        let filteredRows := scored.rows.filter isRefOrCitation
        if filteredRows.isEmpty then emptyReferenceNetwork includeFulltext includeXml
        else
          let takenRows :=
            match topN with
            | some n => if 0 < n then filteredRows.take n.toNat else filteredRows
            | none => filteredRows
          if includeFulltext then
            attachFullTextColumns fulltextO detailO includeXml ⟨scored.cols, takenRows⟩
          else ⟨scored.cols, takenRows⟩


/-! ### Basic list helper lemmas -/

theorem dropWhile_eq_self_of_not {α : Type} (p : α → Bool) :
    ∀ l : List α, (∀ c ∈ l, p c = false) → l.dropWhile p = l := by
  intro l h
  induction l with
  | nil => rfl
  | cons a l ih =>
    simp only [List.dropWhile_cons]
    rw [h a (List.mem_cons_self a l)]
    simp

theorem takeWhile_eq_self_of_all {α : Type} (p : α → Bool) :
    ∀ l : List α, (∀ c ∈ l, p c = true) → l.takeWhile p = l := by
  intro l h
  induction l with
  | nil => rfl
  | cons a l ih =>
    simp only [List.takeWhile_cons]
    rw [h a (List.mem_cons_self a l)]
    simp only [if_true]
    rw [ih fun c hc => h c (List.mem_cons_of_mem a hc)]

theorem dropWhile_eq_nil_of_all {α : Type} (p : α → Bool) :
    ∀ l : List α, (∀ c ∈ l, p c = true) → l.dropWhile p = [] := by
  intro l h
  induction l with
  | nil => rfl
  | cons a l ih =>
    simp only [List.dropWhile_cons]
    rw [h a (List.mem_cons_self a l)]
    simp only [if_true]
    exact ih fun c hc => h c (List.mem_cons_of_mem a hc)

theorem digit_not_pyspace {c : Char} (h : isDigitCh c = true) :
    isPySpace c = false := by
  have h' : 48 ≤ c.toNat ∧ c.toNat ≤ 57 := by simpa [isDigitCh] using h
  simp only [isPySpace, Bool.or_eq_false_iff, beq_eq_false_iff_ne, ne_eq]
  omega

theorem lowerChar_digit {c : Char} (h : isDigitCh c = true) : lowerChar c = c := by
  have h' : 48 ≤ c.toNat ∧ c.toNat ≤ 57 := by simpa [isDigitCh] using h
  have hcond : ¬((65 ≤ c.toNat && c.toNat ≤ 90) = true) := by
    simp only [Bool.and_eq_true, decide_eq_true_eq, not_and]
    omega
  simp only [lowerChar]
  exact if_neg hcond

/-! ### C10: `_primary_relation` precedence -/

/-- C10: for every semicolon-joined relations string, `_primary_relation`
returns `"reference"` when that label occurs among the trimmed, lower-cased
parts, else `"citation"` when present, else `"seed"` when present, else the
first nonempty part, and it returns `None` for `None` or a string with no
nonempty part. -/
theorem primaryRelation_precedence (ro : Option String) :
    (ro = none → primaryRelation ro = none) ∧
    (∀ s, ro = some s →
      (relationParts s = [] → primaryRelation ro = none) ∧
      ("reference" ∈ relationParts s → primaryRelation ro = some "reference") ∧
      ("reference" ∉ relationParts s → "citation" ∈ relationParts s →
        primaryRelation ro = some "citation") ∧
      ("reference" ∉ relationParts s → "citation" ∉ relationParts s →
        "seed" ∈ relationParts s → primaryRelation ro = some "seed") ∧
      ("reference" ∉ relationParts s → "citation" ∉ relationParts s →
        "seed" ∉ relationParts s →
        primaryRelation ro = (relationParts s).head?)) := by
  constructor
  · intro h; subst h; rfl
  · intro s hs; subst hs
    by_cases hemp : s = ""
    · subst hemp
      refine ⟨fun _ => rfl, ?_, ?_, ?_, ?_⟩
      · intro h; exact absurd h (by decide)
      · intro _ h; exact absurd h (by decide)
      · intro _ _ h; exact absurd h (by decide)
      · intro _ _ _; decide
    · have hne : (s == "") = false := beq_eq_false_iff_ne.mpr hemp
      refine ⟨?_, ?_, ?_, ?_, ?_⟩
      · intro hp
        simp [primaryRelation, hne, hp]
      · intro hmem
        simp [primaryRelation, hne, hmem]
      · intro h1 h2
        simp [primaryRelation, hne, h1, h2]
      · intro h1 h2 h3
        simp [primaryRelation, hne, h1, h2, h3]
      · intro h1 h2 h3
        simp [primaryRelation, hne, h1, h2, h3]

/-- Witness for C10 at a concrete relations string. -/
theorem primaryRelation_precedence_witness :
    primaryRelation (some "Seed; Reference") = some "reference" :=
  ((primaryRelation_precedence (some "Seed; Reference")).2 "Seed; Reference"
    rfl).2.1 (by decide)

/-! ### C8: `_classify` -/

theorem pyStrip_of_digits (q : String) (h : ∀ c ∈ q.data, isDigitCh c = true) :
    pyStrip q = q := by
  have h1 : q.data.dropWhile isPySpace = q.data :=
    dropWhile_eq_self_of_not _ _ fun c hc => digit_not_pyspace (h c hc)
  have h2 : q.data.reverse.dropWhile isPySpace = q.data.reverse :=
    dropWhile_eq_self_of_not _ _ fun c hc =>
      digit_not_pyspace (h c (List.mem_reverse.mp hc))
  simp [pyStrip, pyStripList, h1, h2]

theorem stripCIAux_digit_none (x : Char) (xs : List Char) (c : Char)
    (cs : List Char) (hc : isDigitCh c = true) (hx : isDigitCh x = false) :
    stripCIAux (x :: xs) (c :: cs) = none := by
  have hne : (lowerChar c == x) = false := by
    rw [lowerChar_digit hc, beq_eq_false_iff_ne]
    intro he
    rw [he, hx] at hc
    exact Bool.false_ne_true hc
  simp [stripCIAux, hne]

theorem dropSpaces_of_digits (cs : List Char)
    (h : ∀ c ∈ cs, isDigitCh c = true) : dropSpacesL cs = cs :=
  dropWhile_eq_self_of_not _ _ fun c hc => digit_not_pyspace (h c hc)

/-- C8: `_classify` is total on strings — every string is classified as
exactly one of `pmcid`, `pmid`, `doi` or `title`; the patterns are tried in
the order PMCID, PMID, DOI with `title` as the fallback; and a string of 1 to
12 digits always classifies as `pmid` (with the digits as the normalized
value), never as `title`. -/
theorem classify_total_order (q : String) :
    ((classify q).1 = "pmcid" ∨ (classify q).1 = "pmid" ∨
      (classify q).1 = "doi" ∨ (classify q).1 = "title") ∧
    (∀ v, matchPMCID (pyStrip q) = some v → classify q = ("pmcid", upperStr v)) ∧
    (matchPMCID (pyStrip q) = none →
      ∀ v, matchPMID (pyStrip q) = some v → classify q = ("pmid", v)) ∧
    (matchPMCID (pyStrip q) = none → matchPMID (pyStrip q) = none →
      ∀ v, matchDOI (pyStrip q) = some v → classify q = ("doi", v)) ∧
    (matchPMCID (pyStrip q) = none → matchPMID (pyStrip q) = none →
      matchDOI (pyStrip q) = none → classify q = ("title", pyStrip q)) ∧
    (q.data ≠ [] → q.data.length ≤ 12 → (∀ c ∈ q.data, isDigitCh c = true) →
      classify q = ("pmid", q)) := by
  refine ⟨?_, ?_, ?_, ?_, ?_, ?_⟩
  · rcases h1 : matchPMCID (pyStrip q) with _ | v
    · rcases h2 : matchPMID (pyStrip q) with _ | v
      · rcases h3 : matchDOI (pyStrip q) with _ | v <;> simp [classify, h1, h2, h3]
      · simp [classify, h1, h2]
    · simp [classify, h1]
  · intro v hv
    simp [classify, hv]
  · intro h1 v hv
    simp [classify, h1, hv]
  · intro h1 h2 v hv
    simp [classify, h1, h2, hv]
  · intro h1 h2 h3
    simp [classify, h1, h2, h3]
  · intro hne hlen hdig
    have hstrip : pyStrip q = q := pyStrip_of_digits q hdig
    obtain ⟨c, rest, hq⟩ : ∃ c rest, q.data = c :: rest := by
      cases hd : q.data with
      | nil => exact absurd hd hne
      | cons c rest => exact ⟨c, rest, rfl⟩
    have hc : isDigitCh c = true := hdig c (by rw [hq]; exact List.mem_cons_self c rest)
    have hdrop2 : dropSpacesL (c :: rest) = c :: rest := by
      rw [← hq]; exact dropSpaces_of_digits _ hdig
    have hqeq : (⟨c :: rest⟩ : String) = q := by
      rw [← hq]
    have hs6 : stripCIAux ['p', 'm', 'c', 'i', 'd', ':'] (c :: rest) = none :=
      stripCIAux_digit_none _ _ _ _ hc (by decide)
    have hs3 : stripCIAux ['p', 'm', 'c'] (c :: rest) = none :=
      stripCIAux_digit_none _ _ _ _ hc (by decide)
    have hs5 : stripCIAux ['p', 'm', 'i', 'd', ':'] (c :: rest) = none :=
      stripCIAux_digit_none _ _ _ _ hc (by decide)
    have hpmcid : matchPMCID (pyStrip q) = none := by
      rw [hstrip]
      simp [matchPMCID, matchWithOptTag, hq, hdrop2, hs6, pmcidCore, hs3]
    have htake2 : (c :: rest).takeWhile isDigitCh = c :: rest := by
      rw [← hq]; exact takeWhile_eq_self_of_all _ _ hdig
    have hdropd2 : (c :: rest).dropWhile isDigitCh = [] := by
      rw [← hq]; exact dropWhile_eq_nil_of_all _ _ hdig
    have hlen2 : (c :: rest).length ≤ 12 := by rw [← hq]; exact hlen
    have hpmid : matchPMID (pyStrip q) = some q := by
      rw [hstrip]
      simp only [matchPMID, matchWithOptTag, hq, hdrop2, hs5]
      simp only [pmidCore, htake2, hdropd2]
      rw [if_neg (by simp)]
      rw [if_pos (by
        simp only [List.all_nil, Bool.and_true, decide_eq_true_eq]
        exact hlen2)]
      rw [hqeq]
    simp [classify, hpmcid, hpmid]

/-- Witness for C8 at the concrete digit string `"123"`. -/
theorem classify_total_order_witness : classify "123" = ("pmid", "123") :=
  (classify_total_order "123").2.2.2.2.2 (by decide) (by decide) (by decide)

/-! ### C1: node keys in `expand_literature_network_epmc` -/

/-- The node-key rule as the amended claim states it: the `"|"`-join of all
present identifiers among PMID, PMCID, DOI (in that order, stripped and
lower-cased); when none is present, the whitespace-normalized lower-cased
title; when there is also no truthy title, the stripped lower-cased
source URL; otherwise an `anon:`-prefixed hash of the record. -/
def nodeKeySpecAmended (hashO : StdMeta → String) (m : StdMeta) : String :=
  if !(idParts m).isEmpty then joinWith "|" (idParts m)
  else if m.title.truthy then lowerStr (pyStrip (normSub m.title.pyStr))
  else if m.source_url.truthy then lowerStr (pyStrip m.source_url.pyStr)
  else "anon:" ++ hashO m

/-- C1 (amended): `_make_node_key` keys a record by the join of all present
identifiers — not only the single best one — with the normalized title text
(not a hash of it) as the first fallback, then the source URL, then the
`anon:` hash; moreover when any identifier is present the key is independent
of the title and source URL. -/
theorem makeNodeKey_amended (hashO : StdMeta → String) (m : StdMeta) :
    makeNodeKey hashO m = nodeKeySpecAmended hashO m ∧
    ((idParts m).isEmpty = false → ∀ t u,
      makeNodeKey hashO { m with title := t, source_url := u } =
        makeNodeKey hashO m) := by
  constructor
  · by_cases hp : (idParts m).isEmpty
    · have hnil : idParts m = [] := by simpa using hp
      by_cases ht : m.title.truthy
      · simp [makeNodeKey, nodeKeySpecAmended, hp, hnil, ht, joinWith]
      · by_cases hs : m.source_url.truthy
        · simp [makeNodeKey, nodeKeySpecAmended, hp, hnil, ht, hs, joinWith]
        · simp [makeNodeKey, nodeKeySpecAmended, hp, ht, hs]
    · simp [makeNodeKey, nodeKeySpecAmended, hp]
  · intro hp t u
    have hid : idParts { m with title := t, source_url := u } = idParts m := rfl
    simp [makeNodeKey, hid, hp]

/-- Concrete metadata with a PMID only. -/
def c1m1 : StdMeta := { PMID := some "123" }

/-- Concrete metadata with the same PMID and additionally a DOI. -/
def c1m2 : StdMeta := { PMID := some "123", DOI := some "10.1/x" }

/-- Concrete metadata with only a title. -/
def c1mT : StdMeta := { title := .vstr "My  Title" }

/-- Counterexample to C1 as stated: two records share the same
highest-precedence identifier (PMID `"123"`, with no PMCID in either) yet get
different node keys, because `_make_node_key` joins all present identifiers
instead of using only the best one; and a record with no identifiers is keyed
by its normalized title text — the same key under two different hash
functions, so no hash of the title is involved. -/
theorem makeNodeKey_counterexample :
    c1m1.PMID = some "123" ∧ c1m2.PMID = some "123" ∧
    c1m1.PMCID = none ∧ c1m2.PMCID = none ∧
    makeNodeKey (fun _ => "h") c1m1 = "123" ∧
    makeNodeKey (fun _ => "h") c1m2 = "123|10.1/x" ∧
    makeNodeKey (fun _ => "h") c1m1 ≠ makeNodeKey (fun _ => "h") c1m2 ∧
    makeNodeKey (fun _ => "HASH1") c1mT = "my title" ∧
    makeNodeKey (fun _ => "HASH2") c1mT = "my title" := by
  refine ⟨rfl, rfl, rfl, rfl, rfl, rfl, ?_, rfl, rfl⟩
  decide

/-- Witness for the hypothesis-bearing part of C1's amended theorem at a
concrete record with a present identifier. -/
theorem makeNodeKey_amended_witness :
    makeNodeKey (fun _ => "h")
      { c1m1 with title := PyVal.vstr "ignored", source_url := PyVal.vstr "u" } =
      makeNodeKey (fun _ => "h") c1m1 :=
  (makeNodeKey_amended (fun _ => "h") c1m1).2 (by decide) (PyVal.vstr "ignored")
    (PyVal.vstr "u")

/-! ### Association-list lemmas shared by the expansion claims -/

theorem lookup_append_none {β : Type} (l l' : List (String × β)) (k : String)
    (h : l.lookup k = none) : (l ++ l').lookup k = l'.lookup k := by
  induction l with
  | nil => rfl
  | cons a l ih =>
    obtain ⟨k', v⟩ := a
    by_cases hk : k == k'
    · simp [List.lookup, hk] at h
    · simp only [List.cons_append, List.lookup, hk] at h ⊢
      exact ih h

theorem lookup_none_iff {β : Type} (l : List (String × β)) (k : String) :
    l.lookup k = none ↔ k ∉ l.map Prod.fst := by
  induction l with
  | nil => simp
  | cons a l ih =>
    obtain ⟨k', v⟩ := a
    by_cases hk : k == k'
    · simp only [List.lookup, hk, List.map_cons, List.mem_cons]
      have : k = k' := by simpa using hk
      simp [this]
    · simp only [List.lookup, hk, List.map_cons, List.mem_cons]
      have : ¬(k = k') := by simpa using hk
      simp [this, ih]

theorem setNode_eq_setAssoc (l : List (String × NetNode)) (k : String)
    (n : NetNode) : setNode l k n = setAssoc l k n := by
  induction l with
  | nil => rfl
  | cons a l ih =>
    obtain ⟨k', v⟩ := a
    by_cases hk : k' == k
    · simp [setNode, setAssoc, hk]
    · simp [setNode, setAssoc, hk, ih]

theorem lookup_setAssoc_self {β : Type} (l : List (String × β)) (k : String)
    (v : β) : (setAssoc l k v).lookup k = some v := by
  induction l with
  | nil => simp [setAssoc, List.lookup]
  | cons a l ih =>
    obtain ⟨k', v'⟩ := a
    by_cases hk : k' == k
    · simp only [setAssoc, hk, if_true]
      simp [List.lookup]
    · simp only [setAssoc, hk, if_false, Bool.false_eq_true]
      have : (k == k') = false := by
        rw [beq_eq_false_iff_ne]
        intro he
        subst he
        simp at hk
      simp [List.lookup, this, ih]

theorem mem_setAssoc {β : Type} (l : List (String × β)) (k : String) (v : β) :
    ∀ p ∈ setAssoc l k v, p = (k, v) ∨ p ∈ l := by
  induction l with
  | nil => intro p hp; simp [setAssoc] at hp; exact Or.inl hp
  | cons a l ih =>
    obtain ⟨k', v'⟩ := a
    intro p hp
    by_cases hk : k' == k
    · simp only [setAssoc, hk, if_true, List.mem_cons] at hp
      rcases hp with hp | hp
      · exact Or.inl hp
      · exact Or.inr (List.mem_cons_of_mem _ hp)
    · simp only [setAssoc, hk, if_false, Bool.false_eq_true, List.mem_cons] at hp
      rcases hp with hp | hp
      · exact Or.inr (by simp [hp])
      · rcases ih p hp with h | h
        · exact Or.inl h
        · exact Or.inr (List.mem_cons_of_mem _ h)

theorem map_fst_setAssoc_mem {β : Type} (l : List (String × β)) (k : String)
    (v : β) (h : k ∈ l.map Prod.fst) :
    (setAssoc l k v).map Prod.fst = l.map Prod.fst := by
  induction l with
  | nil => simp at h
  | cons a l ih =>
    obtain ⟨k', v'⟩ := a
    by_cases hk : k' == k
    · have : k' = k := by simpa using hk
      simp [setAssoc, hk, this]
    · have hne : ¬(k = k') := by
        intro he; subst he; simp at hk
      simp only [List.map_cons, List.mem_cons] at h
      rcases h with h | h
      · exact absurd h hne
      · simp [setAssoc, hk, ih h]

theorem lookup_eq_some_mem {β : Type} (l : List (String × β)) (k : String)
    (v : β) (h : l.lookup k = some v) : (k, v) ∈ l := by
  induction l with
  | nil => simp [List.lookup] at h
  | cons a l ih =>
    obtain ⟨k', v'⟩ := a
    by_cases hk : k == k'
    · have he : k = k' := by simpa using hk
      simp only [List.lookup, hk] at h
      subst he
      simp only [Option.some.injEq] at h
      subst h
      exact List.mem_cons_self _ _
    · simp only [List.lookup, hk] at h
      exact List.mem_cons_of_mem _ (ih h)

theorem mem_insertNew (l : List String) (x y : String) :
    y ∈ insertNew l x ↔ y ∈ l ∨ y = x := by
  by_cases hx : x ∈ l
  · simp only [insertNew, hx, if_true]
    constructor
    · exact Or.inl
    · intro h
      rcases h with h | h
      · exact h
      · subst h; exact hx
  · simp [insertNew, hx]

/-! ### C2: merging in `register` -/

/-- The parent list of a freshly created node: the truthy parent key. -/
def regParents : Option String → List String
  | some p => if p != "" then [p] else []
  | none => []

/-- The node created by `register` for an unseen key. -/
def freshNode (hashO : StdMeta → String) (m : PyDict) (r : String) (d : Nat)
    (p : Option String) : NetNode :=
  ⟨standardizeMeta m, makeNodeKey hashO (standardizeMeta m), d, [r], regParents p⟩

/-- The merge `register` applies to an existing node. -/
def mergeNode (n : NetNode) (r : String) (d : Nat) (p : Option String) : NetNode :=
  let n' := { n with depth := min n.depth d, relations := insertNew n.relations r }
  match p with
  | some q => if q != "" then { n' with parent_keys := insertNew n'.parent_keys q } else n'
  | none => n'

theorem register_fresh (hashO : StdMeta → String)
    (nodes : List (String × NetNode)) (m : PyDict) (r : String) (d : Nat)
    (p : Option String)
    (h : nodes.lookup (makeNodeKey hashO (standardizeMeta m)) = none) :
    register hashO nodes m r d p =
      (makeNodeKey hashO (standardizeMeta m),
        nodes ++ [(makeNodeKey hashO (standardizeMeta m), freshNode hashO m r d p)]) := by
  cases p with
  | none => simp [register, h, freshNode, regParents]
  | some q => by_cases hq : q != "" <;> simp [register, h, freshNode, regParents, hq]

theorem register_existing (hashO : StdMeta → String)
    (nodes : List (String × NetNode)) (m : PyDict) (r : String) (d : Nat)
    (p : Option String) (n : NetNode)
    (h : nodes.lookup (makeNodeKey hashO (standardizeMeta m)) = some n) :
    register hashO nodes m r d p =
      (makeNodeKey hashO (standardizeMeta m),
        setAssoc nodes (makeNodeKey hashO (standardizeMeta m)) (mergeNode n r d p)) := by
  cases p with
  | none => simp [register, h, mergeNode, setNode_eq_setAssoc]
  | some q =>
    by_cases hq : q != "" <;>
      simp [register, h, mergeNode, setNode_eq_setAssoc, hq]

theorem mergeNode_depth (n : NetNode) (r : String) (d : Nat) (p : Option String) :
    (mergeNode n r d p).depth = min n.depth d := by
  cases p with
  | none => rfl
  | some q => by_cases hq : q != "" <;> simp [mergeNode, hq]

theorem mergeNode_relations (n : NetNode) (r : String) (d : Nat)
    (p : Option String) : (mergeNode n r d p).relations = insertNew n.relations r := by
  cases p with
  | none => rfl
  | some q => by_cases hq : q != "" <;> simp [mergeNode, hq]

theorem mergeNode_key (n : NetNode) (r : String) (d : Nat) (p : Option String) :
    (mergeNode n r d p).node_key = n.node_key := by
  cases p with
  | none => rfl
  | some q => by_cases hq : q != "" <;> simp [mergeNode, hq]

theorem mergeNode_meta (n : NetNode) (r : String) (d : Nat) (p : Option String) :
    (mergeNode n r d p).meta = n.meta := by
  cases p with
  | none => rfl
  | some q => by_cases hq : q != "" <;> simp [mergeNode, hq]

theorem mem_mergeNode_parents (n : NetNode) (r : String) (d : Nat)
    (p : Option String) (q' : String) :
    q' ∈ (mergeNode n r d p).parent_keys ↔
      q' ∈ n.parent_keys ∨ (p = some q' ∧ q' ≠ "") := by
  cases p with
  | none => simp [mergeNode]
  | some q =>
    by_cases hq : q != ""
    · have hqne : q ≠ "" := by simpa using hq
      simp only [mergeNode, hq, if_true, mem_insertNew]
      constructor
      · rintro (h | h)
        · exact Or.inl h
        · subst h; exact Or.inr ⟨rfl, hqne⟩
      · rintro (h | ⟨he, hne⟩)
        · exact Or.inl h
        · simp only [Option.some.injEq] at he
          subst he; exact Or.inr rfl
    · have hqe : q = "" := by simpa using hq
      subst hqe
      simp only [mergeNode, hq, Bool.false_eq_true, if_false]
      constructor
      · exact Or.inl
      · rintro (h | ⟨he, hne⟩)
        · exact h
        · simp only [Option.some.injEq] at he
          exact absurd he.symm hne

theorem mem_regParents (p : Option String) (q : String) :
    q ∈ regParents p ↔ p = some q ∧ q ≠ "" := by
  cases p with
  | none => simp [regParents]
  | some x =>
    by_cases hx : x != ""
    · have hxne : x ≠ "" := by simpa using hx
      simp only [regParents, hx, if_true, List.mem_singleton, Option.some.injEq]
      constructor
      · intro h; subst h; exact ⟨rfl, hxne⟩
      · rintro ⟨he, _⟩; exact he.symm
    · have hxe : x = "" := by simpa using hx
      subst hxe
      simp only [regParents, hx, Bool.false_eq_true, if_false, List.not_mem_nil,
        false_iff, not_and, Option.some.injEq]
      intro he hne
      exact hne he.symm

/-- C2 (amended): two `register` calls landing on the same fresh key produce a
single record whose depth is the minimum of the two depths, whose relations
are the union of the two labels, and whose parent set is the union of the
truthy (non-null and nonempty) parent keys. -/
theorem register_merge (hashO : StdMeta → String)
    (nodes : List (String × NetNode)) (m1 m2 : PyDict) (r1 r2 : String)
    (d1 d2 : Nat) (p1 p2 : Option String)
    (hk2 : makeNodeKey hashO (standardizeMeta m2) =
      makeNodeKey hashO (standardizeMeta m1))
    (hfresh : nodes.lookup (makeNodeKey hashO (standardizeMeta m1)) = none) :
    ∃ node,
      ((register hashO (register hashO nodes m1 r1 d1 p1).2 m2 r2 d2 p2).2).lookup
        (makeNodeKey hashO (standardizeMeta m1)) = some node ∧
      node.depth = min d1 d2 ∧
      (∀ r, r ∈ node.relations ↔ (r = r1 ∨ r = r2)) ∧
      (∀ p, p ∈ node.parent_keys ↔ ((p1 = some p ∨ p2 = some p) ∧ p ≠ "")) := by
  have h1 := register_fresh hashO nodes m1 r1 d1 p1 hfresh
  have hlook1 : ((register hashO nodes m1 r1 d1 p1).2).lookup
      (makeNodeKey hashO (standardizeMeta m1)) = some (freshNode hashO m1 r1 d1 p1) := by
    rw [h1]
    simp only
    rw [lookup_append_none _ _ _ hfresh]
    simp [List.lookup]
  have hlook1' : ((register hashO nodes m1 r1 d1 p1).2).lookup
      (makeNodeKey hashO (standardizeMeta m2)) = some (freshNode hashO m1 r1 d1 p1) := by
    rw [hk2]; exact hlook1
  have h2 := register_existing hashO (register hashO nodes m1 r1 d1 p1).2 m2 r2 d2 p2
    (freshNode hashO m1 r1 d1 p1) hlook1'
  refine ⟨mergeNode (freshNode hashO m1 r1 d1 p1) r2 d2 p2, ?_, ?_, ?_, ?_⟩
  · rw [h2]
    simp only
    rw [hk2]
    exact lookup_setAssoc_self _ _ _
  · rw [mergeNode_depth]
    rfl
  · intro r
    rw [mergeNode_relations, mem_insertNew]
    simp [freshNode]
  · intro p
    rw [mem_mergeNode_parents]
    show p ∈ regParents p1 ∨ _ ↔ _
    rw [mem_regParents]
    constructor
    · rintro (⟨he, hne⟩ | ⟨he, hne⟩)
      · exact ⟨Or.inl he, hne⟩
      · exact ⟨Or.inr he, hne⟩
    · rintro ⟨he | he, hne⟩
      · exact Or.inl ⟨he, hne⟩
      · exact Or.inr ⟨he, hne⟩

/-- Witness for C2 at concrete inputs: the same PMID reached as a seed and
then as a reference at depth 2 yields one record with depth 0, both labels
and the one truthy parent. -/
theorem register_merge_witness :
    ∃ node,
      ((register (fun _ => "h")
        (register (fun _ => "h") [] [("PMID", PyVal.vstr "9")] "seed" 0 none).2
        [("PMID", PyVal.vstr "9"), ("DOI", PyVal.vnone)] "reference" 2
        (some "parent")).2).lookup
        (makeNodeKey (fun _ => "h") (standardizeMeta [("PMID", PyVal.vstr "9")])) =
        some node ∧
      node.depth = min 0 2 ∧
      (∀ r, r ∈ node.relations ↔ (r = "seed" ∨ r = "reference")) ∧
      (∀ p, p ∈ node.parent_keys ↔
        ((none = some p ∨ (some "parent" : Option String) = some p) ∧ p ≠ "")) :=
  register_merge (fun _ => "h") [] [("PMID", PyVal.vstr "9")]
    [("PMID", PyVal.vstr "9"), ("DOI", PyVal.vnone)] "seed" "reference" 0 2 none
    (some "parent") (by decide) (by decide)

/-- Counterexample to C2 as stated: a merge whose second parent key is the
empty string `""` — a non-null value — is dropped by the code's truthiness
check, so the record's parent set stays empty even though the union of
non-null parent keys is `{""}`. -/
theorem register_merge_counterexample :
    ((((register (fun _ => "h")
        (register (fun _ => "h") [] [("PMID", PyVal.vstr "9")] "seed" 0 none).2
        [("PMID", PyVal.vstr "9")] "reference" 1 (some "")).2).lookup "9").map
          NetNode.parent_keys = some []) ∧
    ([none, some ""].filterMap (fun x : Option String => x)) ≠ [] := by
  constructor
  · decide
  · decide

/-! ### Sorting lemmas -/

theorem insertSortedBy_perm {α : Type} (le : α → α → Bool) (x : α) :
    ∀ l : List α, (insertSortedBy le x l).Perm (x :: l) := by
  intro l
  induction l with
  | nil => exact List.Perm.refl _
  | cons y ys ih =>
    by_cases h : le x y
    · simp [insertSortedBy, h]
    · simp only [insertSortedBy, h, Bool.false_eq_true, if_false]
      exact (List.Perm.cons y ih).trans (List.Perm.swap x y ys)

theorem sortByB_perm {α : Type} (le : α → α → Bool) :
    ∀ l : List α, (sortByB le l).Perm l := by
  intro l
  induction l with
  | nil => exact List.Perm.refl _
  | cons x xs ih =>
    exact ((insertSortedBy_perm le x (sortByB le xs)).trans (List.Perm.cons x ih))

theorem mem_sortByB {α : Type} (le : α → α → Bool) (l : List α) (x : α) :
    x ∈ sortByB le l ↔ x ∈ l :=
  (sortByB_perm le l).mem_iff

theorem insertSortedBy_pairwise {α : Type} (le : α → α → Bool)
    (htot : ∀ a b, le a b = true ∨ le b a = true)
    (htr : ∀ a b c, le a b = true → le b c = true → le a c = true) (x : α) :
    ∀ l : List α, List.Pairwise (fun a b => le a b = true) l →
      List.Pairwise (fun a b => le a b = true) (insertSortedBy le x l) := by
  intro l hl
  induction l with
  | nil => simp [insertSortedBy]
  | cons y ys ih =>
    rcases List.pairwise_cons.mp hl with ⟨hy, hys⟩
    by_cases h : le x y
    · simp only [insertSortedBy, h, if_true]
      refine List.pairwise_cons.mpr ⟨?_, hl⟩
      intro z hz
      rcases List.mem_cons.mp hz with hz | hz
      · rw [hz]; exact h
      · exact htr x y z h (hy z hz)
    · simp only [insertSortedBy, h, Bool.false_eq_true, if_false]
      refine List.pairwise_cons.mpr ⟨?_, ih hys⟩
      intro z hz
      have hz' := (insertSortedBy_perm le x ys).mem_iff.mp hz
      rcases List.mem_cons.mp hz' with hz' | hz'
      · rw [hz']
        rcases htot x y with h' | h'
        · exact absurd h' h
        · exact h'
      · exact hy z hz'

theorem sortByB_pairwise {α : Type} (le : α → α → Bool)
    (htot : ∀ a b, le a b = true ∨ le b a = true)
    (htr : ∀ a b c, le a b = true → le b c = true → le a c = true) :
    ∀ l : List α, List.Pairwise (fun a b => le a b = true) (sortByB le l) := by
  intro l
  induction l with
  | nil => simp [sortByB]
  | cons x xs ih => exact insertSortedBy_pairwise le htot htr x _ ih

/-! ### The traversal invariant for C3, C6 and C9 -/

/-- The relation labels allowed by the enabled include set. -/
def labelOK (includeSet : List String) (r : String) : Prop :=
  r = "seed" ∨ (r = "reference" ∧ "references" ∈ includeSet) ∨
    (r = "citation" ∧ "citations" ∈ includeSet)

/-- The node-map invariant maintained by the traversal: every stored node is
keyed consistently, stays within the depth bound, has depth 0 exactly when it
carries the `"seed"` label, carries only enabled labels, and keys are unique. -/
def NodesInv (includeSet : List String) (maxDepth : Nat)
    (nodes : List (String × NetNode)) : Prop :=
  (∀ kn : String × NetNode, kn ∈ nodes →
    kn.2.depth ≤ maxDepth ∧ kn.2.node_key = kn.1 ∧
    (kn.2.depth = 0 ↔ "seed" ∈ kn.2.relations) ∧
    (∀ r ∈ kn.2.relations, labelOK includeSet r)) ∧
  (nodes.map Prod.fst).Nodup

theorem register_preserves_inv (hashO : StdMeta → String)
    (includeSet : List String) (maxDepth : Nat)
    (nodes : List (String × NetNode)) (m : PyDict) (rel : String) (d : Nat)
    (p : Option String) (hinv : NodesInv includeSet maxDepth nodes)
    (hd : d ≤ maxDepth) (hiff : d = 0 ↔ rel = "seed")
    (hlab : labelOK includeSet rel) :
    NodesInv includeSet maxDepth (register hashO nodes m rel d p).2 := by
  rcases hinv with ⟨hmem, hnodup⟩
  cases hl : nodes.lookup (makeNodeKey hashO (standardizeMeta m)) with
  | none =>
    rw [register_fresh hashO nodes m rel d p hl]
    constructor
    · intro kn hkn
      rcases List.mem_append.mp hkn with hkn | hkn
      · exact hmem kn hkn
      · rcases List.mem_singleton.mp hkn with rfl
        refine ⟨hd, rfl, ?_, ?_⟩
        · show d = 0 ↔ "seed" ∈ [rel]
          rw [List.mem_singleton, hiff]
          exact ⟨fun h => h.symm, fun h => h.symm⟩
        · intro r hr
          rcases List.mem_singleton.mp hr with rfl
          exact hlab
    · simp only [List.map_append, List.map_cons, List.map_nil]
      rw [List.nodup_append]
      refine ⟨hnodup, List.nodup_singleton _, ?_⟩
      intro a ha hb
      rcases List.mem_singleton.mp hb with rfl
      exact ((lookup_none_iff nodes _).mp hl) ha
  | some n =>
    rw [register_existing hashO nodes m rel d p n hl]
    have hn := hmem _ (lookup_eq_some_mem nodes _ n hl)
    constructor
    · intro kn hkn
      rcases mem_setAssoc _ _ _ kn hkn with rfl | hkn
      · refine ⟨?_, ?_, ?_, ?_⟩
        · show (mergeNode n rel d p).depth ≤ maxDepth
          rw [mergeNode_depth]
          exact le_trans (min_le_right _ _) hd
        · show (mergeNode n rel d p).node_key = _
          rw [mergeNode_key]
          exact hn.2.1
        · show (mergeNode n rel d p).depth = 0 ↔ "seed" ∈ (mergeNode n rel d p).relations
          rw [mergeNode_depth, mergeNode_relations, mem_insertNew,
            Nat.min_eq_zero_iff]
          rw [hn.2.2.1, hiff]
          constructor
          · rintro (h | h)
            · exact Or.inl h
            · exact Or.inr h.symm
          · rintro (h | h)
            · exact Or.inl h
            · exact Or.inr h.symm
        · intro r hr
          rw [mergeNode_relations, mem_insertNew] at hr
          rcases hr with hr | rfl
          · exact hn.2.2.2 r hr
          · exact hlab
      · exact hmem kn hkn
    · rw [map_fst_setAssoc_mem]
      · exact hnodup
      · have := lookup_eq_some_mem nodes _ n hl
        exact List.mem_map.mpr ⟨_, this, rfl⟩

theorem processChildren_preserves_inv (hashO : StdMeta → String)
    (includeSet : List String) (rel : String) (curKey : String)
    (curDepth maxDepth : Nat) (hdepth : curDepth + 1 ≤ maxDepth)
    (hrel : rel ≠ "seed") (hlab : labelOK includeSet rel) :
    ∀ (children : List PyDict) (s : ExpSt),
      NodesInv includeSet maxDepth s.nodes →
      NodesInv includeSet maxDepth
        (processChildren hashO rel curKey curDepth maxDepth children s).nodes := by
  intro children
  induction children with
  | nil => intro s h; exact h
  | cons child rest ih =>
    intro s h
    simp only [processChildren]
    have h1 : NodesInv includeSet maxDepth
        (register hashO s.nodes child rel (curDepth + 1) (some curKey)).2 := by
      refine register_preserves_inv hashO includeSet maxDepth s.nodes child rel
        (curDepth + 1) (some curKey) h hdepth ?_ hlab
      constructor
      · intro hc; exact absurd hc (Nat.succ_ne_zero curDepth)
      · intro hc; exact absurd hc hrel
    cases hq : (ExpSt.mk
        (register hashO s.nodes child rel (curDepth + 1) (some curKey)).2
        s.queue s.queuedDepth).queuedDepth.lookup
        (register hashO s.nodes child rel (curDepth + 1) (some curKey)).1 with
    | none =>
      by_cases hlt : curDepth + 1 < maxDepth
      · simp only [hlt, if_true, hq]
        exact ih _ h1
      · simp only [hlt, if_false]
        exact ih _ h1
    | some pd =>
      by_cases hlt : curDepth + 1 < maxDepth
      · by_cases hgt : pd > curDepth + 1
        · simp only [hlt, if_true, hq, hgt]
          exact ih _ h1
        · simp only [hlt, if_true, hq, hgt, if_false]
          exact ih _ h1
      · simp only [hlt, if_false]
        exact ih _ h1

theorem expandStep_preserves_inv (hashO : StdMeta → String)
    (refsO citesO : StdMeta → List PyDict) (includeSet : List String)
    (maxDepth : Nat) (s : ExpSt) (h : NodesInv includeSet maxDepth s.nodes) :
    NodesInv includeSet maxDepth
      (expandStep hashO refsO citesO includeSet maxDepth s).nodes := by
  cases hqs : s.queue with
  | nil => simpa [expandStep, hqs] using h
  | cons k rest =>
    simp only [expandStep, hqs]
    cases hl : s.nodes.lookup k with
    | none => exact h
    | some node =>
      simp only
      by_cases hle : maxDepth ≤ node.depth
      · simp only [hle, if_true]
        exact h
      · simp only [hle, if_false]
        have hd1 : node.depth + 1 ≤ maxDepth := Nat.succ_le_of_lt (Nat.lt_of_not_le hle)
        by_cases hr : "references" ∈ includeSet
        · by_cases hcit : "citations" ∈ includeSet
          · simp only [hr, if_true, hcit]
            refine processChildren_preserves_inv hashO includeSet "citation" k
              node.depth maxDepth hd1 (by decide) (Or.inr (Or.inr ⟨rfl, hcit⟩)) _ _ ?_
            exact processChildren_preserves_inv hashO includeSet "reference" k
              node.depth maxDepth hd1 (by decide) (Or.inr (Or.inl ⟨rfl, hr⟩)) _ _ h
          · simp only [hr, if_true, hcit, if_false]
            exact processChildren_preserves_inv hashO includeSet "reference" k
              node.depth maxDepth hd1 (by decide) (Or.inr (Or.inl ⟨rfl, hr⟩)) _ _ h
        · by_cases hcit : "citations" ∈ includeSet
          · simp only [hr, if_false, hcit, if_true]
            exact processChildren_preserves_inv hashO includeSet "citation" k
              node.depth maxDepth hd1 (by decide) (Or.inr (Or.inr ⟨rfl, hcit⟩)) _ _ h
          · simp only [hr, if_false, hcit]
            exact h

theorem expandLoop_preserves_inv (hashO : StdMeta → String)
    (refsO citesO : StdMeta → List PyDict) (includeSet : List String)
    (maxDepth : Nat) :
    ∀ (fuel : Nat) (s : ExpSt), NodesInv includeSet maxDepth s.nodes →
      NodesInv includeSet maxDepth
        (expandLoop hashO refsO citesO includeSet maxDepth fuel s).nodes := by
  intro fuel
  induction fuel with
  | zero => intro s h; exact h
  | succ n ih =>
    intro s h
    cases hqs : s.queue with
    | nil => simpa [expandLoop, hqs] using h
    | cons k rest =>
      simp only [expandLoop, hqs]
      exact ih _ (expandStep_preserves_inv hashO refsO citesO includeSet maxDepth s h)

theorem registerSeeds_preserves_inv (hashO : StdMeta → String)
    (fetchO : String → PyDict) (includeSet : List String) (maxDepth : Nat) :
    ∀ (seeds : List SeedInput) (s : ExpSt),
      NodesInv includeSet maxDepth s.nodes →
      NodesInv includeSet maxDepth
        (registerSeeds hashO fetchO maxDepth seeds s).nodes := by
  intro seeds
  induction seeds with
  | nil => intro s h; exact h
  | cons seed rest ih =>
    intro s h
    simp only [registerSeeds]
    have h1 : NodesInv includeSet maxDepth
        (register hashO s.nodes
          (match seed with | .inl q => fetchO q | .inr d => d) "seed" 0 none).2 :=
      register_preserves_inv hashO includeSet maxDepth s.nodes _ "seed" 0 none h
        (Nat.zero_le _) (by simp) (Or.inl rfl)
    by_cases hmd : maxDepth > 0
    · simp only [hmd, if_true]
      exact ih _ h1
    · simp only [hmd, if_false]
      exact ih _ h1

theorem nodesInv_nil (includeSet : List String) (maxDepth : Nat) :
    NodesInv includeSet maxDepth [] :=
  ⟨fun kn hkn => absurd hkn (List.not_mem_nil kn), List.nodup_nil⟩

/-- The invariant holds for the final node map of the expansion. -/
theorem expand_final_inv (hashO : StdMeta → String) (fetchO : String → PyDict)
    (refsO citesO : StdMeta → List PyDict) (fuel : Nat)
    (seeds : List SeedInput) (maxDepth : Nat)
    (include? : Option (List String)) :
    NodesInv (includeSetOf include?) maxDepth
      (expandLoop hashO refsO citesO (includeSetOf include?) maxDepth fuel
        (registerSeeds hashO fetchO maxDepth seeds ⟨[], [], []⟩)).nodes :=
  expandLoop_preserves_inv hashO refsO citesO (includeSetOf include?) maxDepth
    fuel _ (registerSeeds_preserves_inv hashO fetchO (includeSetOf include?)
      maxDepth seeds ⟨[], [], []⟩ (nodesInv_nil _ _))

/-- Every output record of the expansion comes from a stored node. -/
theorem expand_mem_of_record (hashO : StdMeta → String)
    (fetchO : String → PyDict) (refsO citesO : StdMeta → List PyDict)
    (fuel : Nat) (seeds : List SeedInput) (maxDepth : Nat)
    (include? : Option (List String)) (rec : NetRecord)
    (h : rec ∈ expandLiteratureNetworkEpmc hashO fetchO refsO citesO fuel seeds
      maxDepth include?) :
    ∃ kn : String × NetNode,
      kn ∈ (expandLoop hashO refsO citesO (includeSetOf include?) maxDepth fuel
        (registerSeeds hashO fetchO maxDepth seeds ⟨[], [], []⟩)).nodes ∧
      rec = finalizeNode kn.2 := by
  by_cases hs : seeds.isEmpty
  · simp [expandLiteratureNetworkEpmc, hs] at h
  · simp only [expandLiteratureNetworkEpmc, hs, Bool.false_eq_true, if_false] at h
    rw [mem_sortByB] at h
    rcases List.mem_map.mp h with ⟨kn, hkn, hrec⟩
    exact ⟨kn, hkn, hrec.symm⟩

/-- C3: the returned rows all have depth at most `max_depth`; a queued node at
depth `≥ max_depth` is popped without any expansion; only enabled edge kinds
contribute relation labels, and the effective include set is the subset of
`{"references","citations"}` singled out by the lower-cased `include`
argument. -/
theorem expand_bfs_bounded (hashO : StdMeta → String) (fetchO : String → PyDict)
    (refsO citesO : StdMeta → List PyDict) (fuel : Nat)
    (seeds : List SeedInput) (maxDepth : Nat)
    (include? : Option (List String)) :
    (∀ rec ∈ expandLiteratureNetworkEpmc hashO fetchO refsO citesO fuel seeds
        maxDepth include?, rec.depth ≤ maxDepth) ∧
    (∀ (s : ExpSt) (k : String) (rest : List String) (n : NetNode),
      s.queue = k :: rest → s.nodes.lookup k = some n → maxDepth ≤ n.depth →
      expandStep hashO refsO citesO (includeSetOf include?) maxDepth s =
        { s with queue := rest }) ∧
    (∀ rec ∈ expandLiteratureNetworkEpmc hashO fetchO refsO citesO fuel seeds
        maxDepth include?, ∀ r ∈ rec.relationsList,
        r = "seed" ∨ (r = "reference" ∧ "references" ∈ includeSetOf include?) ∨
          (r = "citation" ∧ "citations" ∈ includeSetOf include?)) ∧
    (∀ x ∈ includeSetOf include?, x ∈ ["references", "citations"]) ∧
    (∀ l, include? = some l → ∀ x ∈ includeSetOf include?,
      x ∈ (l.filter (fun o => o != "")).map lowerStr) := by
  have hinv := expand_final_inv hashO fetchO refsO citesO fuel seeds maxDepth include?
  refine ⟨?_, ?_, ?_, ?_, ?_⟩
  · intro rec hrec
    rcases expand_mem_of_record hashO fetchO refsO citesO fuel seeds maxDepth
      include? rec hrec with ⟨kn, hkn, rfl⟩
    exact (hinv.1 kn hkn).1
  · intro s k rest n hq hl hle
    simp only [expandStep, hq, hl, hle, if_true]
  · intro rec hrec r hr
    rcases expand_mem_of_record hashO fetchO refsO citesO fuel seeds maxDepth
      include? rec hrec with ⟨kn, hkn, rfl⟩
    have hr' : r ∈ kn.2.relations := by
      have := hr
      simp only [finalizeNode] at this
      exact (mem_sortByB strLeB _ r).mp this
    exact (hinv.1 kn hkn).2.2.2 r hr'
  · intro x hx
    cases include? with
    | none => exact hx
    | some l =>
      simp only [includeSetOf, List.mem_filter] at hx
      exact hx.1
  · intro l hl x hx
    subst hl
    simp only [includeSetOf, List.mem_filter] at hx
    have := hx.2
    simpa using this

/-- The concrete one-seed expansion used by the witnesses below. -/
def wExpand : List NetRecord :=
  expandLiteratureNetworkEpmc (fun _ => "h") (fun _ => []) (fun _ => [])
    (fun _ => []) 0 [Sum.inr [("PMID", PyVal.vstr "1")]] 0 none

/-- The single record of `wExpand`. -/
def wRec : NetRecord :=
  { node_key := "1", depth := 0, relationsList := ["seed"],
    relations := some "seed", parentsList := [], parent_keys := none,
    n_parents := 0, meta := { PMID := some "1" } }

/-- A concrete traversal state whose queue front is at the depth bound. -/
def wSt : ExpSt :=
  ⟨[("k", ⟨{ PMID := some "7" }, "k", 1, ["seed"], []⟩)], ["k"], [("k", 0)]⟩

/-- Witness for C3: the concrete seed record respects the depth bound, and a
front node at depth `≥ max_depth` is popped with no expansion. -/
theorem expand_bfs_bounded_witness :
    wRec.depth ≤ 0 ∧
    expandStep (fun _ => "h") (fun _ => []) (fun _ => []) (includeSetOf none) 1
      wSt = { wSt with queue := [] } :=
  ⟨(expand_bfs_bounded (fun _ => "h") (fun _ => []) (fun _ => []) (fun _ => [])
      0 [Sum.inr [("PMID", PyVal.vstr "1")]] 0 none).1 wRec (by decide),
   (expand_bfs_bounded (fun _ => "h") (fun _ => []) (fun _ => []) (fun _ => [])
      0 [Sum.inr [("PMID", PyVal.vstr "1")]] 1 none).2.1 wSt "k" []
      ⟨{ PMID := some "7" }, "k", 1, ["seed"], []⟩ rfl (by decide) (by decide)⟩

theorem map_finalize_key (L : List (String × NetNode))
    (h : ∀ kn ∈ L, kn.2.node_key = kn.1) :
    L.map (fun kn => (finalizeNode kn.2).node_key) = L.map Prod.fst := by
  induction L with
  | nil => rfl
  | cons a L ih =>
    simp only [List.map_cons]
    rw [ih fun kn hkn => h kn (List.mem_cons_of_mem a hkn)]
    have : (finalizeNode a.2).node_key = a.1 := h a (List.mem_cons_self a L)
    rw [this]

/-- C6: the DataFrame returned by `expand_literature_network_epmc` is
de-duplicated — every `node_key` value appears in exactly one row, for every
choice of seeds, oracles, depth bound and include set. -/
theorem expand_nodekey_unique (hashO : StdMeta → String)
    (fetchO : String → PyDict) (refsO citesO : StdMeta → List PyDict)
    (fuel : Nat) (seeds : List SeedInput) (maxDepth : Nat)
    (include? : Option (List String)) :
    ((expandLiteratureNetworkEpmc hashO fetchO refsO citesO fuel seeds maxDepth
      include?).map NetRecord.node_key).Nodup := by
  by_cases hs : seeds.isEmpty
  · simp [expandLiteratureNetworkEpmc, hs]
  · have hinv := expand_final_inv hashO fetchO refsO citesO fuel seeds maxDepth include?
    simp only [expandLiteratureNetworkEpmc, hs, Bool.false_eq_true, if_false]
    set L := (expandLoop hashO refsO citesO (includeSetOf include?) maxDepth fuel
      (registerSeeds hashO fetchO maxDepth seeds ⟨[], [], []⟩)).nodes with hL
    have hperm : ((sortByB recLeB (L.map fun kn => finalizeNode kn.2)).map
        NetRecord.node_key).Perm ((L.map fun kn => finalizeNode kn.2).map
        NetRecord.node_key) :=
      (sortByB_perm recLeB _).map NetRecord.node_key
    rw [hperm.nodup_iff]
    rw [List.map_map]
    have : (NetRecord.node_key ∘ fun kn => finalizeNode kn.2) =
        fun kn : String × NetNode => (finalizeNode kn.2).node_key := rfl
    rw [this, map_finalize_key L fun kn hkn => (hinv.1 kn hkn).2.1]
    exact hinv.2

/-- C9: a row of the expansion output has depth 0 exactly when its relations
contain the `"seed"` label. -/
theorem expand_depth_zero_iff_seed (hashO : StdMeta → String)
    (fetchO : String → PyDict) (refsO citesO : StdMeta → List PyDict)
    (fuel : Nat) (seeds : List SeedInput) (maxDepth : Nat)
    (include? : Option (List String)) :
    ∀ rec ∈ expandLiteratureNetworkEpmc hashO fetchO refsO citesO fuel seeds
      maxDepth include?, (rec.depth = 0 ↔ "seed" ∈ rec.relationsList) := by
  intro rec hrec
  have hinv := expand_final_inv hashO fetchO refsO citesO fuel seeds maxDepth include?
  rcases expand_mem_of_record hashO fetchO refsO citesO fuel seeds maxDepth
    include? rec hrec with ⟨kn, hkn, rfl⟩
  have hiff := (hinv.1 kn hkn).2.2.1
  show kn.2.depth = 0 ↔ "seed" ∈ sortByB strLeB kn.2.relations
  rw [mem_sortByB]
  exact hiff

/-- Witness for C9 at the concrete one-seed expansion. -/
theorem expand_depth_zero_iff_seed_witness :
    wRec.depth = 0 ↔ "seed" ∈ wRec.relationsList :=
  expand_depth_zero_iff_seed (fun _ => "h") (fun _ => []) (fun _ => [])
    (fun _ => []) 0 [Sum.inr [("PMID", PyVal.vstr "1")]] 0 none wRec (by decide)

/-! ### C4: failure truncation in the listing loops -/

theorem fetchPagesAux_until_fail (fetch : Nat → Option (List RawRow))
    (pg : Nat → List RawRow) (pageSize : Nat) (hps : 0 < pageSize) :
    ∀ (n page fuel : Nat),
      (∀ i, page ≤ i → i < page + n → fetch i = some (pg i) ∧ (pg i).length = pageSize) →
      fetch (page + n) = none →
      n < fuel →
      fetchPagesAux fetch pageSize page fuel =
        ((List.range' page n).map (fun i => (pg i).map normalizeRow)).flatten := by
  intro n
  induction n with
  | zero =>
    intro page fuel hok hfail hfuel
    cases fuel with
    | zero => exact absurd hfuel (Nat.lt_irrefl 0)
    | succ f =>
      simp only [Nat.add_zero] at hfail
      simp [fetchPagesAux, hfail, List.range']
  | succ n ih =>
    intro page fuel hok hfail hfuel
    cases fuel with
    | zero => exact absurd hfuel (Nat.not_lt_zero _)
    | succ f =>
      have hpage := hok page (Nat.le_refl page) (by omega)
      have hne : pg page ≠ [] := by
        intro h
        rw [h] at hpage
        simp at hpage
        omega
      have hie : (pg page).isEmpty = false := by
        cases hpg : pg page with
        | nil => exact absurd hpg hne
        | cons a l => rfl
      have hlt : ((pg page).length < pageSize) = False := by
        rw [hpage.2]
        simp
      simp only [fetchPagesAux, hpage.1, hie, Bool.false_eq_true, if_false]
      rw [if_neg (by rw [hpage.2]; exact Nat.lt_irrefl _)]
      have hrec := ih (page + 1) f
        (fun i h1 h2 => hok i (by omega) (by omega))
        (by rw [show page + 1 + n = page + (n + 1) by omega]; exact hfail)
        (by omega)
      rw [hrec]
      rw [List.range'_succ]
      simp

/-- C4: a failed page fetch truncates the listing at that point — the
functions return exactly the rows of the pages fetched successfully before
the failure — and an unresolvable input yields the empty DataFrame with the
fixed seven-column schema; the same holds for both `list_references_epmc` and
`list_citations_epmc`. -/
theorem list_truncation (fetchR fetchC : String × String → Nat → Option (List RawRow))
    (pageSize fuel : Nat) (sid : String × String) (pg : Nat → List RawRow)
    (k : Nat) :
    listReferencesEpmc none fetchR pageSize fuel = ⟨LIST_COLS, []⟩ ∧
    listCitationsEpmc none fetchC pageSize fuel = ⟨LIST_COLS, []⟩ ∧
    LIST_COLS = ["PMID", "PMCID", "DOI", "title", "journal", "year",
      "source_url"] ∧
    (0 < pageSize → 1 ≤ k → k ≤ fuel →
      (∀ i, 1 ≤ i → i < k → fetchR sid i = some (pg i) ∧ (pg i).length = pageSize) →
      fetchR sid k = none →
      listReferencesEpmc (some sid) fetchR pageSize fuel =
        ⟨LIST_COLS, ((List.range' 1 (k - 1)).map
          (fun i => (pg i).map normalizeRow)).flatten⟩) ∧
    (0 < pageSize → 1 ≤ k → k ≤ fuel →
      (∀ i, 1 ≤ i → i < k → fetchC sid i = some (pg i) ∧ (pg i).length = pageSize) →
      fetchC sid k = none →
      listCitationsEpmc (some sid) fetchC pageSize fuel =
        ⟨LIST_COLS, ((List.range' 1 (k - 1)).map
          (fun i => (pg i).map normalizeRow)).flatten⟩) := by
  refine ⟨rfl, rfl, rfl, ?_, ?_⟩
  · intro hps hk hfuel hok hfail
    simp only [listReferencesEpmc]
    congr 1
    exact fetchPagesAux_until_fail (fetchR sid) pg pageSize hps (k - 1) 1 fuel
      (fun i h1 h2 => hok i h1 (by omega))
      (by rw [show 1 + (k - 1) = k by omega]; exact hfail)
      (by omega)
  · intro hps hk hfuel hok hfail
    simp only [listCitationsEpmc]
    congr 1
    exact fetchPagesAux_until_fail (fetchC sid) pg pageSize hps (k - 1) 1 fuel
      (fun i h1 h2 => hok i h1 (by omega))
      (by rw [show 1 + (k - 1) = k by omega]; exact hfail)
      (by omega)

/-- A concrete page oracle: page 1 succeeds with one row, page 2 fails. -/
def wFetch : String × String → Nat → Option (List RawRow) :=
  fun _ i => if i = 1 then some [{}] else none

/-- Witness for C4: with one successful full page before a failing page 2,
the listing returns exactly that page's normalized rows; the unresolvable
case returns the empty frame with the fixed schema. -/
theorem list_truncation_witness :
    listReferencesEpmc (some ("MED", "1")) wFetch 1 2 =
      ⟨LIST_COLS, [normalizeRow {}]⟩ ∧
    listReferencesEpmc none wFetch 1 2 = ⟨LIST_COLS, []⟩ := by
  constructor
  · have h := (list_truncation wFetch wFetch 1 2 ("MED", "1") (fun _ => [{}])
      2).2.2.2.1 (by omega) (by omega) (by omega)
      (fun i h1 h2 => by
        have hi : i = 1 := by omega
        subst hi
        exact ⟨rfl, rfl⟩) rfl
    simpa [List.range'] using h
  · exact (list_truncation wFetch wFetch 1 2 ("MED", "1") (fun _ => [{}]) 2).1

/-! ### C5: `score_reference_dataframe` -/

theorem lookup_setAssoc_ne {β : Type} (l : List (String × β)) (k k' : String)
    (v : β) (h : k' ≠ k) : (setAssoc l k v).lookup k' = l.lookup k' := by
  induction l with
  | nil =>
    simp only [setAssoc, List.lookup]
    have : (k' == k) = false := beq_eq_false_iff_ne.mpr h
    simp [this]
  | cons a l ih =>
    obtain ⟨ka, va⟩ := a
    by_cases hk : ka == k
    · have hke : ka = k := by simpa using hk
      subst hke
      simp only [setAssoc, hk, if_true]
      have : (k' == ka) = false := beq_eq_false_iff_ne.mpr h
      simp [List.lookup, this]
    · simp only [setAssoc, hk, Bool.false_eq_true, if_false]
      by_cases hk' : k' == ka
      · simp [List.lookup, hk']
      · simp [List.lookup, hk', ih]

/-- The scoring of a single row when no cache entry applies. -/
def scoreRowFresh (detailO : Bool → IdLookup → Detail) (iftd : Bool)
    (tanh : ℚ → ℚ) (cy : Int) (w : Weights) (row : RowData) : RowData :=
  annotateScores tanh cy w (detailO iftd (lookupOfRow row))
    (combineArticleText row (detailO iftd (lookupOfRow row))) row

/-- The no-collision condition on rows: no later row reuses an earlier row's
truthy cache key. -/
def ScoreKeysDistinct (rows : List RowData) : Prop :=
  List.Pairwise (fun a b => ∀ k, scoreCacheKey a = some k → k ≠ "" →
    scoreCacheKey b ≠ some k) rows

theorem processScoreRow_fresh (detailO : Bool → IdLookup → Detail) (iftd : Bool)
    (tanh : ℚ → ℚ) (cy : Int) (w : Weights) (acc : ScoreAcc) (row : RowData)
    (hd : ∀ k, scoreCacheKey row = some k → k ≠ "" →
      acc.detailCache.lookup k = none ∧ acc.textCache.lookup k = none) :
    (processScoreRow detailO iftd tanh cy w acc row).rowsOut =
      acc.rowsOut ++ [scoreRowFresh detailO iftd tanh cy w row] := by
  cases hck : scoreCacheKey row with
  | none => simp [processScoreRow, hck, scoreRowFresh]
  | some k =>
    by_cases hk : k != ""
    · have hke : k ≠ "" := by simpa using hk
      rcases hd k hck hke with ⟨hd1, hd2⟩
      simp [processScoreRow, hck, hk, hd1, hd2, scoreRowFresh]
    · simp [processScoreRow, hck, hk, scoreRowFresh]

theorem processScoreRow_caches (detailO : Bool → IdLookup → Detail) (iftd : Bool)
    (tanh : ℚ → ℚ) (cy : Int) (w : Weights) (acc : ScoreAcc) (row : RowData)
    (k' : String)
    (hne : scoreCacheKey row ≠ some k') :
    (processScoreRow detailO iftd tanh cy w acc row).detailCache.lookup k' =
      acc.detailCache.lookup k' ∧
    (processScoreRow detailO iftd tanh cy w acc row).textCache.lookup k' =
      acc.textCache.lookup k' := by
  cases hck : scoreCacheKey row with
  | none => simp [processScoreRow, hck]
  | some k =>
    have hkne : k' ≠ k := by
      intro he
      subst he
      exact hne hck
    by_cases hk : k != ""
    · cases hcd : acc.detailCache.lookup k with
      | none =>
        cases hct : acc.textCache.lookup k with
        | none =>
          simp [processScoreRow, hck, hk, hcd, hct, lookup_setAssoc_ne _ _ _ _ hkne]
        | some t =>
          simp [processScoreRow, hck, hk, hcd, hct, lookup_setAssoc_ne _ _ _ _ hkne]
      | some d =>
        cases hct : acc.textCache.lookup k with
        | none =>
          simp [processScoreRow, hck, hk, hcd, hct, lookup_setAssoc_ne _ _ _ _ hkne]
        | some t =>
          simp [processScoreRow, hck, hk, hcd, hct]
    · simp [processScoreRow, hck, hk]

theorem scoreRows_fresh (detailO : Bool → IdLookup → Detail) (iftd : Bool)
    (tanh : ℚ → ℚ) (cy : Int) (w : Weights) :
    ∀ (rows : List RowData) (acc : ScoreAcc),
      (∀ r ∈ rows, ∀ k, scoreCacheKey r = some k → k ≠ "" →
        acc.detailCache.lookup k = none ∧ acc.textCache.lookup k = none) →
      ScoreKeysDistinct rows →
      (scoreRows detailO iftd tanh cy w acc rows).rowsOut =
        acc.rowsOut ++ rows.map (scoreRowFresh detailO iftd tanh cy w) := by
  intro rows
  induction rows with
  | nil => intro acc hdisj hdist; simp [scoreRows]
  | cons row rest ih =>
    intro acc hdisj hdist
    rcases List.pairwise_cons.mp hdist with ⟨hhead, htail⟩
    simp only [scoreRows]
    have hfresh := processScoreRow_fresh detailO iftd tanh cy w acc row
      (hdisj row (List.mem_cons_self row rest))
    have hrec := ih (processScoreRow detailO iftd tanh cy w acc row)
      (fun r hr k hk hke => by
        have hnot : scoreCacheKey row ≠ some k := by
          intro he
          exact (hhead r hr k he hke) hk
        have hcache := processScoreRow_caches detailO iftd tanh cy w acc row k hnot
        rw [hcache.1, hcache.2]
        exact hdisj r (List.mem_cons_of_mem row hr) k hk hke)
      htail
    rw [hrec, hfresh]
    simp [List.map_cons]

theorem normalizeWeights_sum (w? : Option Weights) :
    (normalizeWeights w?).year + (normalizeWeights w?).function +
      (normalizeWeights w?).longevity = 1 := by
  cases w? with
  | none => norm_num [normalizeWeights, DEFAULT_WEIGHTS]
  | some w =>
    by_cases ht : w.year + w.function + w.longevity ≤ 0
    · simp only [normalizeWeights, ht, if_true]
      norm_num [DEFAULT_WEIGHTS]
    · simp only [normalizeWeights, ht, if_false]
      rw [div_add_div_same, div_add_div_same, div_self]
      exact ne_of_gt (lt_of_not_le ht)

theorem compositeGeB_total (a b : RowData) :
    compositeGeB a b = true ∨ compositeGeB b a = true := by
  simp only [compositeGeB, decide_eq_true_eq]
  exact le_total _ _

theorem compositeGeB_trans (a b c : RowData) (h1 : compositeGeB a b = true)
    (h2 : compositeGeB b c = true) : compositeGeB a c = true := by
  simp only [compositeGeB, decide_eq_true_eq] at h1 h2 ⊢
  exact le_trans h2 h1

/-- C5 (amended): `score_reference_dataframe` assigns every row the composite
score `year_score * w_year + functionality_score * w_function +
longevity_score * w_longevity` with the weights normalized to sum to 1, where
`year_score` is `1/(1+age)` for a truthy integral year and `0` when the year
is missing, unparsable or zero, `functionality_score` is the tanh-squashed
function-sentence count (with the bounded numeral bonus) of the row's
combined article text, and `longevity_score` the tanh-squashed half
longevity-keyword count; the rows are returned sorted in descending order of
the composite score.  (`hdist` rules out cache-key collisions between
distinct rows, which is the regime the claim describes; the caches are then
semantically transparent.) -/
theorem score_composite (detailO : Bool → IdLookup → Detail) (iftd : Bool)
    (tanh : ℚ → ℚ) (cy : Int) (w? : Option Weights) (df : PDF)
    (hdist : ScoreKeysDistinct df.rows) :
    ((normalizeWeights w?).year + (normalizeWeights w?).function +
      (normalizeWeights w?).longevity = 1) ∧
    (scoreReferenceDataframe detailO tanh cy w? iftd df).rows.length =
      df.rows.length ∧
    List.Pairwise (fun a b => b.composite_score.getD 0 ≤ a.composite_score.getD 0)
      (scoreReferenceDataframe detailO tanh cy w? iftd df).rows ∧
    (∀ r ∈ (scoreReferenceDataframe detailO tanh cy w? iftd df).rows,
      r.function_signal = some (functionSignal
        (combineArticleText r (detailO iftd (lookupOfRow r)))) ∧
      r.longevity_signal = some (longevitySignal
        (combineArticleText r (detailO iftd (lookupOfRow r)))) ∧
      r.year_score = some (yearScoreOf cy r.year) ∧
      r.functionality_score = some (tanh (r.function_signal.getD 0)) ∧
      r.longevity_score = some (tanh (r.longevity_signal.getD 0 / 2)) ∧
      r.composite_score = some (r.year_score.getD 0 * (normalizeWeights w?).year +
        r.functionality_score.getD 0 * (normalizeWeights w?).function +
        r.longevity_score.getD 0 * (normalizeWeights w?).longevity)) := by
  refine ⟨normalizeWeights_sum w?, ?_, ?_, ?_⟩
  · by_cases hemp : df.rows.isEmpty
    · simp [scoreReferenceDataframe, hemp]
    · simp only [scoreReferenceDataframe, hemp, Bool.false_eq_true, if_false]
      rw [(sortByB_perm compositeGeB _).length_eq]
      rw [scoreRows_fresh detailO iftd tanh cy (normalizeWeights w?) df.rows
        ⟨[], [], []⟩ (fun r hr k hk hke => ⟨rfl, rfl⟩) hdist]
      simp
  · by_cases hemp : df.rows.isEmpty
    · have hnil : df.rows = [] := by
        cases h : df.rows with
        | nil => rfl
        | cons a l => rw [h] at hemp; simp at hemp
      simp [scoreReferenceDataframe, hemp, hnil]
    · simp only [scoreReferenceDataframe, hemp, Bool.false_eq_true, if_false]
      have hp := sortByB_pairwise compositeGeB compositeGeB_total compositeGeB_trans
        (scoreRows detailO iftd tanh cy (normalizeWeights w?) ⟨[], [], []⟩ df.rows).rowsOut
      exact hp.imp fun h => by
        simpa [compositeGeB, decide_eq_true_eq] using h
  · intro r hr
    by_cases hemp : df.rows.isEmpty
    · have hnil : df.rows = [] := by
        cases h : df.rows with
        | nil => rfl
        | cons a l => rw [h] at hemp; simp at hemp
      rw [scoreReferenceDataframe] at hr
      simp only [hemp, if_true] at hr
      rw [hnil] at hr
      simp at hr
    · simp only [scoreReferenceDataframe, hemp, Bool.false_eq_true, if_false] at hr
      rw [mem_sortByB] at hr
      rw [scoreRows_fresh detailO iftd tanh cy (normalizeWeights w?) df.rows
        ⟨[], [], []⟩ (fun r hr k hk hke => ⟨rfl, rfl⟩) hdist] at hr
      simp only [List.nil_append] at hr
      rcases List.mem_map.mp hr with ⟨r0, hr0, rfl⟩
      exact ⟨rfl, rfl, rfl, rfl, rfl, rfl⟩

/-- Modelled from the claim's words for the counterexample below: a recency
score that is `1/(1+age)` from the publication year and `0` only when the
year is missing. -/
def claimedYearScore (currentYear : Int) (yv : PyVal) : ℚ :=
  match pyIntOpt yv with
  | some y => 1 / (1 + ((max 0 (currentYear - y) : Int) : ℚ))
  | none => 0

/-- A concrete row whose publication year is the integer 0. -/
def c5row : RowData := { node_key := some "k", year := PyVal.vint 0 }

/-- Counterexample to C5 as stated: for a present year equal to `0` the code's
recency score is `0` (the `if year_int:` truthiness check treats year 0 like a
missing year), while the claimed `1/(1+age)` formula gives `1/2027` at current
year 2026; so the composite differs from the claimed blend at this row. -/
theorem score_year_zero_counterexample :
    ((scoreReferenceDataframe (fun _ _ => {}) (fun q => q) 2026 none false
      ⟨[], [c5row]⟩).rows.map RowData.year_score = [some 0]) ∧
    claimedYearScore 2026 (PyVal.vint 0) = 1 / 2027 ∧
    (1 / 2027 : ℚ) ≠ 0 := by
  refine ⟨?_, ?_, ?_⟩
  · decide
  · simp only [claimedYearScore, pyIntOpt]
    norm_num
  · norm_num

/-- The single output row of the witness DataFrame below. -/
def c5out : RowData :=
  scoreRowFresh (fun _ _ => {}) false (fun q => q) 2026 (normalizeWeights none)
    c5row

/-- Witness for C5 at a concrete one-row DataFrame: the composite column of
its row equals the weighted blend of the stored signal columns. -/
theorem score_composite_witness :
    c5out.composite_score = some (c5out.year_score.getD 0 *
      (normalizeWeights none).year +
      c5out.functionality_score.getD 0 * (normalizeWeights none).function +
      c5out.longevity_score.getD 0 * (normalizeWeights none).longevity) :=
  ((score_composite (fun _ _ => {}) false (fun q => q) 2026 none ⟨[], [c5row]⟩
    (by simp [ScoreKeysDistinct])).2.2.2 c5out
    (List.mem_singleton.mpr rfl)).2.2.2.2.2

/-! ### C7: empty-result signalling of `collect_reference_network_for_citation` -/

/-- C7: whenever the citation is `None`, the prepared seed metadata is empty,
the expanded network is empty, or no scored row has primary relation
`"reference"` or `"citation"`, the function returns the empty DataFrame
carrying the full fixed column schema (and, being a total function of its
oracles, it does not raise in these cases). -/
theorem collect_empty_cases (hashO : StdMeta → String)
    (fetchO : String → PyDict) (refsO citesO : StdMeta → List PyDict)
    (detailO : Bool → IdLookup → Detail) (fulltextO : IdLookup → FTPayload)
    (tanh : ℚ → ℚ) (currentYear : Int) (fuel : Nat)
    (geneSymbol uniprotId : Option String) (include? : Option (List String))
    (maxDepth : Nat) (includeFulltext includeXml : Bool) (topN : Option Int)
    (citation : Option CitInput) :
    ((citation = none ∨ ∃ c, citation = some c ∧
        ((prepareCitationMetadata fetchO c).isEmpty = true ∨
         expandLiteratureNetworkEpmc hashO fetchO refsO citesO fuel
           [Sum.inr (prepareCitationMetadata fetchO c)] maxDepth include? = [] ∨
         ((collectScoredPDF hashO fetchO refsO citesO detailO tanh currentYear
            fuel (prepareCitationMetadata fetchO c)
            (match geneSymbol with
             | some g => PyVal.vstr g
             | none => (prepareCitationMetadata fetchO c).get "gene_symbol")
            (match uniprotId with
             | some u => PyVal.vstr u
             | none => (prepareCitationMetadata fetchO c).get "uniprot_id")
            (pyOr ((prepareCitationMetadata fetchO c).get "seed_source_title")
              ((prepareCitationMetadata fetchO c).get "title"))
            include? maxDepth).rows.filter isRefOrCitation) = [])) →
      collectReferenceNetworkForCitation hashO fetchO refsO citesO detailO
        fulltextO tanh currentYear fuel citation geneSymbol uniprotId include?
        maxDepth includeFulltext includeXml topN =
        emptyReferenceNetwork includeFulltext includeXml) ∧
    (emptyReferenceNetwork includeFulltext includeXml).rows = [] ∧
    (∀ col ∈ EMPTY_NETWORK_COLS,
      col ∈ (emptyReferenceNetwork includeFulltext includeXml).cols) := by
  refine ⟨?_, ?_, ?_⟩
  · intro hcase
    rcases hcase with rfl | ⟨c, rfl, hsub⟩
    · rfl
    · simp only [collectReferenceNetworkForCitation]
      by_cases hempty : (prepareCitationMetadata fetchO c).isEmpty
      · simp [hempty]
      · rcases hsub with hsub | hsub | hsub
        · exact absurd hsub hempty
        · simp [hempty, hsub]
        · by_cases hnet : expandLiteratureNetworkEpmc hashO fetchO refsO citesO
            fuel [Sum.inr (prepareCitationMetadata fetchO c)] maxDepth include? = []
          · simp [hempty, hnet]
          · simp only [hempty, Bool.false_eq_true, if_false]
            rw [if_neg (by simpa using hnet)]
            rw [if_pos (by simpa using hsub)]
  · rfl
  · intro col hcol
    by_cases hf : includeFulltext && includeXml
    · simp [emptyReferenceNetwork, hf, hcol]
    · simp [emptyReferenceNetwork, hf, hcol]

/-- Witness for C7: a `None` citation yields the empty frame with the fixed
schema, at concrete oracle instantiations. -/
theorem collect_empty_cases_witness :
    collectReferenceNetworkForCitation (fun _ => "h") (fun _ => [])
      (fun _ => []) (fun _ => []) (fun _ _ => {}) (fun _ => {}) (fun q => q)
      2026 0 none none none none 1 true false (some 10) =
      emptyReferenceNetwork true false :=
  (collect_empty_cases (fun _ => "h") (fun _ => []) (fun _ => []) (fun _ => [])
    (fun _ _ => {}) (fun _ => {}) (fun q => q) 2026 0 none none none 1 true
    false (some 10) none).1 (Or.inl rfl)
